import Mathlib

/-!
Shallow embedding of `chord_packet.py` (morphis), the wire-format codec of a
Chord-style DHT node.  Byte buffers are modelled as `List Nat` (one element per
byte); multi-byte integers are big-endian; fallible operations return
`Except ChordError`.  Each Lean definition is translated from the Python class
of the same name; offsets into the buffer (`self.buf[i:]`) are modelled by
iterated `List.drop`.
-/

/-- Errors raised by the codec layer: `truncated` models `struct.error` on a
short buffer (and the binary codec's truncated-input failure), `typeMismatch`
models `ChordException` raised by `ChordMessage.__init__`, `assertionFailed`
models the `assert` in `ChordPeerList.encode`, and `valueError` models
`struct.pack`/`len` applied to a still-unset (`None`) field. -/
inductive ChordError
  | truncated
  | typeMismatch (expected got : Nat)
  | assertionFailed
  | valueError
deriving DecidableEq

/-- Big-endian 4-byte encoding, `struct.pack(">L", n)`. -/
def pack32 (n : Nat) : List Nat :=
  [n / 2 ^ 24 % 256, n / 2 ^ 16 % 256, n / 2 ^ 8 % 256, n % 256]

/-- Big-endian 4-byte decode of the first four bytes, `struct.unpack(">L", buf[i:i+4])`;
fewer than four bytes raises `struct.error`. -/
def readU32 : List Nat → Except ChordError Nat
  | a :: b :: c :: d :: _ => .ok (a * 2 ^ 24 + b * 2 ^ 16 + c * 2 ^ 8 + d)
  | _ => .error .truncated

/-- One-byte boolean decode, `struct.unpack("?", buf[i:i+1])`: any non-zero
byte is `true`; an empty slice raises `struct.error`. -/
def readBoolByte : List Nat → Except ChordError Bool
  | b :: _ => .ok (b != 0)
  | _ => .error .truncated

/-- Unwrap an `Option` field: passing a still-`None` field to `struct.pack` or
`len` raises; mirrors encoding an instance whose field was never assigned. -/
def req {α : Type} : Option α → Except ChordError α
  | Option.none => .error .valueError
  | some a => .ok a

namespace sshtype

/-- Modelled from the spec: the external binary-field codec `sshtype.encodeBinary`
(module `sshtype` is not under src/) writes a 4-byte big-endian length followed
by the raw bytes. -/
def encodeBinary (b : List Nat) : List Nat := pack32 b.length ++ b

/-- Modelled from the spec: `sshtype.encodeString` writes a 4-byte big-endian
length followed by the UTF-8 bytes; strings are modelled as their byte
sequences. -/
def encodeString (s : List Nat) : List Nat := pack32 s.length ++ s

/-- Modelled from the spec: `sshtype.parseBinary` reads the 4-byte length and
that many bytes, returning (bytes consumed, value); it fails on truncated
input (the length claims more bytes than remain). -/
def parseBinary : List Nat → Except ChordError (Nat × List Nat)
  | a :: b :: c :: d :: rest =>
      let l := a * 2 ^ 24 + b * 2 ^ 16 + c * 2 ^ 8 + d
      if l ≤ rest.length then .ok (4 + l, rest.take l) else .error .truncated
  | _ => .error .truncated

/-- Modelled from the spec: `sshtype.parseString`, identical wire layout to
`parseBinary` with the payload interpreted as UTF-8 bytes. -/
def parseString (buf : List Nat) : Except ChordError (Nat × List Nat) :=
  parseBinary buf

end sshtype

/-- Concatenation of length-prefixed blobs, the loop body of `ChordRelay.encode`. -/
def encodeBlobList : List (List Nat) → List Nat
  | [] => []
  | p :: ps => sshtype.encodeBinary p ++ encodeBlobList ps

/-- The read loop of `ChordRelay.parse`: decode `count` length-prefixed blobs,
advancing the cursor by each consumed length, and return (total consumed,
blobs). -/
def parseBlobList : List Nat → Nat → Except ChordError (Nat × List (List Nat))
  | _, 0 => .ok (0, [])
  | buf, n + 1 => do
      let (l, p) ← sshtype.parseBinary buf
      let (l2, ps) ← parseBlobList (buf.drop l) n
      .ok (l + l2, p :: ps)

/-! ### Arithmetic and list helper lemmas -/

theorem except_bind_ok {ε α β : Type} (a : α) (f : α → Except ε β) :
    (Except.ok a : Except ε α) >>= f = f a := rfl

theorem except_bind_err {ε α β : Type} (e : ε) (f : α → Except ε β) :
    (Except.error e : Except ε α) >>= f = Except.error e := rfl

theorem pack32_val (n : Nat) (h : n < 2 ^ 32) :
    (n / 2 ^ 24 % 256) * 2 ^ 24 + (n / 2 ^ 16 % 256) * 2 ^ 16 + (n / 2 ^ 8 % 256) * 2 ^ 8 + n % 256 = n := by
  omega

theorem pack32_cons (n : Nat) (l : List Nat) :
    pack32 n ++ l = n / 2 ^ 24 % 256 :: n / 2 ^ 16 % 256 :: n / 2 ^ 8 % 256 :: n % 256 :: l := rfl

theorem pack32_length (n : Nat) : (pack32 n).length = 4 := rfl

theorem take_cons4 (a b c d : Nat) (l : List Nat) (k : Nat) :
    (a :: b :: c :: d :: l).take (k + 4) = a :: b :: c :: d :: l.take k := by
  show (a :: b :: c :: d :: l).take (k + 1 + 1 + 1 + 1) = _
  simp [List.take_succ_cons]

theorem encodeBinary_length (b : List Nat) :
    (sshtype.encodeBinary b).length = 4 + b.length := by
  simp only [sshtype.encodeBinary, List.length_append, pack32_length]

theorem encodeString_length (s : List Nat) :
    (sshtype.encodeString s).length = 4 + s.length := by
  simp only [sshtype.encodeString, List.length_append, pack32_length]

/-- `readU32` on a take-truncated buffer that starts with `pack32 n`. -/
theorem readU32_take (n : Nat) (h : n < 2 ^ 32) (rest : List Nat) (j : Nat) :
    readU32 ((pack32 n ++ rest).take j) =
      if j < 4 then .error .truncated else .ok n := by
  rcases Nat.lt_or_ge j 4 with hj | hj
  · rw [if_pos hj]
    interval_cases j <;> simp [pack32, readU32]
  · rw [if_neg (by omega)]
    obtain ⟨k, rfl⟩ : ∃ k, j = k + 4 := ⟨j - 4, by omega⟩
    rw [pack32_cons, take_cons4, readU32]
    exact congrArg Except.ok (pack32_val n h)

/-- `readBoolByte` on a take-truncated buffer. -/
theorem readBoolByte_take (b : Nat) (rest : List Nat) (j : Nat) :
    readBoolByte ((b :: rest).take j) =
      if j < 1 then .error .truncated else .ok (b != 0) := by
  rcases Nat.lt_or_ge j 1 with hj | hj
  · rw [if_pos hj]
    interval_cases j
    simp [readBoolByte]
  · rw [if_neg (by omega)]
    obtain ⟨k, rfl⟩ : ∃ k, j = k + 1 := ⟨j - 1, by omega⟩
    rw [List.take_succ_cons, readBoolByte]

/-- `sshtype.parseBinary` on a take-truncated buffer that starts with one
encoded blob: it fails until the whole blob is present, then returns the blob
and its consumed length no matter what follows. -/
theorem parseBinary_take (b : List Nat) (h : b.length < 2 ^ 32) (rest : List Nat) (j : Nat) :
    sshtype.parseBinary ((sshtype.encodeBinary b ++ rest).take j) =
      if j < 4 + b.length then .error .truncated else .ok (4 + b.length, b) := by
  rcases Nat.lt_or_ge j 4 with hj | hj
  · rw [if_pos (show j < 4 + b.length by omega)]
    rw [sshtype.encodeBinary, List.append_assoc, pack32_cons]
    interval_cases j <;> rfl
  · obtain ⟨k, rfl⟩ : ∃ k, j = k + 4 := ⟨j - 4, by omega⟩
    rw [sshtype.encodeBinary, List.append_assoc, pack32_cons, take_cons4,
      sshtype.parseBinary]
    simp only [pack32_val b.length h]
    rcases Nat.lt_or_ge k b.length with hk | hk
    · rw [if_neg (show ¬ b.length ≤ ((b ++ rest).take k).length by
        simp only [List.length_take, List.length_append]; omega)]
      rw [if_pos (show k + 4 < 4 + b.length by omega)]
    · rw [if_pos (show b.length ≤ ((b ++ rest).take k).length by
        simp only [List.length_take, List.length_append]; omega)]
      rw [if_neg (show ¬ k + 4 < 4 + b.length by omega)]
      rw [List.take_take, min_eq_left hk, List.take_left]

/-- Plain-success corollary of `parseBinary_take`. -/
theorem parseBinary_append (b : List Nat) (h : b.length < 2 ^ 32) (rest : List Nat) :
    sshtype.parseBinary (sshtype.encodeBinary b ++ rest) = .ok (4 + b.length, b) := by
  have := parseBinary_take b h rest (sshtype.encodeBinary b ++ rest).length
  rw [List.take_length, if_neg] at this
  · exact this
  · simp only [List.length_append, encodeBinary_length]
    omega

/-- The relay read loop on a take-truncated buffer laid out as exactly
`ps.length` encoded blobs followed by `rest`. -/
theorem parseBlobList_take (ps : List (List Nat)) (h : ∀ p ∈ ps, p.length < 2 ^ 32)
    (rest : List Nat) (j : Nat) :
    parseBlobList ((encodeBlobList ps ++ rest).take j) ps.length =
      if j < (encodeBlobList ps).length then .error .truncated
      else .ok ((encodeBlobList ps).length, ps) := by
  induction ps generalizing rest j with
  | nil =>
      simp [encodeBlobList, parseBlobList]
  | cons p tl ih =>
      have hp : p.length < 2 ^ 32 := h p (List.mem_cons_self p tl)
      have htl : ∀ q ∈ tl, q.length < 2 ^ 32 := fun q hq => h q (List.mem_cons_of_mem p hq)
      rw [encodeBlobList, List.append_assoc]
      rw [show (p :: tl).length = tl.length + 1 from rfl, parseBlobList]
      have h1 := parseBinary_take p hp (encodeBlobList tl ++ rest) j
      rcases Nat.lt_or_ge j (4 + p.length) with hj | hj
      · rw [if_pos hj] at h1
        simp only [h1, except_bind_err]
        rw [if_pos (show j < (sshtype.encodeBinary p ++ encodeBlobList tl).length by
          simp only [List.length_append, encodeBinary_length]; omega)]
      · rw [if_neg (show ¬ j < 4 + p.length by omega)] at h1
        simp only [h1, except_bind_ok]
        rw [List.drop_take, List.drop_left' (encodeBinary_length p)]
        have h2 := ih htl rest (j - (4 + p.length))
        rcases Nat.lt_or_ge (j - (4 + p.length)) (encodeBlobList tl).length with hk | hk
        · rw [if_pos hk] at h2
          simp only [h2, except_bind_err]
          rw [if_pos (show j < (sshtype.encodeBinary p ++ encodeBlobList tl).length by
            simp only [List.length_append, encodeBinary_length]; omega)]
        · rw [if_neg (show ¬ j - (4 + p.length) < (encodeBlobList tl).length by omega)] at h2
          simp only [h2, except_bind_ok]
          rw [if_neg (show ¬ j < (sshtype.encodeBinary p ++ encodeBlobList tl).length by
            simp only [List.length_append, encodeBinary_length]; omega)]
          simp only [List.length_append, encodeBinary_length]

/-- Plain-success corollary of `parseBlobList_take`. -/
theorem parseBlobList_append (ps : List (List Nat)) (h : ∀ p ∈ ps, p.length < 2 ^ 32)
    (rest : List Nat) :
    parseBlobList (encodeBlobList ps ++ rest) ps.length =
      .ok ((encodeBlobList ps).length, ps) := by
  have := parseBlobList_take ps h rest (encodeBlobList ps ++ rest).length
  rw [List.take_length, if_neg] at this
  · exact this
  · simp only [List.length_append]
    omega

/-- If the declared count exceeds the number of blobs actually present, the
relay read loop runs off the end of the buffer and fails with the
truncated-input error. -/
theorem parseBlobList_overrun (ps : List (List Nat)) (h : ∀ p ∈ ps, p.length < 2 ^ 32)
    (d : Nat) :
    parseBlobList (encodeBlobList ps) (ps.length + d + 1) = .error .truncated := by
  induction ps with
  | nil =>
      rw [show ([] : List (List Nat)).length + d + 1 = d + 1 by simp]
      rfl
  | cons p tl ih =>
      have hp : p.length < 2 ^ 32 := h p (List.mem_cons_self p tl)
      have htl : ∀ q ∈ tl, q.length < 2 ^ 32 := fun q hq => h q (List.mem_cons_of_mem p hq)
      rw [List.length_cons, show tl.length + 1 + d + 1 = (tl.length + d + 1) + 1 by omega]
      rw [encodeBlobList, parseBlobList]
      simp only [parseBinary_append p hp (encodeBlobList tl), except_bind_ok]
      rw [List.drop_left' (encodeBinary_length p)]
      simp only [ih htl, except_bind_err]

/-! ### Message type registry (`CHORD_MSG_*` constants) -/

def CHORD_MSG_RELAY : Nat := 100
def CHORD_MSG_NODE_INFO : Nat := 110
def CHORD_MSG_GET_PEERS : Nat := 115
def CHORD_MSG_PEER_LIST : Nat := 120
def CHORD_MSG_FIND_NODE : Nat := 150
def CHORD_MSG_GET_DATA : Nat := 160
def CHORD_MSG_DATA_RESPONSE : Nat := 162
def CHORD_MSG_DATA_PRESENCE : Nat := 165
def CHORD_MSG_STORE_DATA : Nat := 170
def CHORD_MSG_DATA_STORED : Nat := 172
def CHORD_MSG_STORAGE_INTEREST : Nat := 175

/-- The `DataMode` enumeration of the source, with its declared numeric values. -/
inductive DataMode
  | none
  | get
  | store
deriving DecidableEq

/-- The numeric value each `DataMode` member is declared with in the source. -/
def DataMode.val : DataMode → Nat
  | DataMode.none => 0
  | DataMode.get => 10
  | DataMode.store => 20

/-- The `data_mode` attribute of `ChordFindNode` holds a `DataMode` member when
set by the constructor or a caller, but a plain boolean after `parse` ran
(`struct.unpack("?", ...)` returns a bool). -/
inductive DataModeField
  | mode (d : DataMode)
  | parsed (b : Bool)
deriving DecidableEq

/-- The byte `struct.pack("?", self.data_mode)` writes: Python packs the truth
value of the argument, and a plain-Enum member is truthy whatever its numeric
value, so every `DataMode` member packs to 1; a bool packs to 1 or 0. -/
def dataModeByte : DataModeField → Nat
  | DataModeField.mode _ => 1
  | DataModeField.parsed b => if b then 1 else 0

/-- The canonical peer record `ChordPeerList.parse` builds (a `db.Peer` with
just the three wire fields); strings are modelled as their UTF-8 bytes. -/
structure PeerRecord where
  address : List Nat
  node_id : List Nat
  pubkey : List Nat
deriving DecidableEq

/-- Modelled from the spec: the signing key material (`node_key`) of a
local/managed peer (`peer.Peer`, a module not under src/); `asbytes` derives
the raw public-key wire bytes from it. -/
structure SigningKey where
  asbytes : List Nat
deriving DecidableEq

/-- The three runtime shapes `ChordPeerList.encode` can receive: a
local/managed `peer.Peer` (carries `node_key`), a directory `db.Peer` (carries
`pubkey`), or any other object, which fails the `assert type(peer) is Peer`. -/
inductive WirePeer
  | managed (address node_id : List Nat) (node_key : SigningKey)
  | directory (p : PeerRecord)
  | unknownShape (address node_id : List Nat)
deriving DecidableEq

namespace ChordMessage

/-- `ChordMessage.parse_type`: `struct.unpack("B", buf[0:1])[0]`; an empty
buffer raises `struct.error`. -/
def parse_type : List Nat → Except ChordError Nat
  | [] => Except.error ChordError.truncated
  | b :: _ => Except.ok b

/-- `ChordMessage.encode`: the common header, `struct.pack("B", self.packet_type & 0xff)`. -/
def encodeBase (packet_type : Nat) : List Nat := [packet_type % 256]

end ChordMessage

/-! ### The eleven concrete message variants.
Fields that `__init__` defaults to `None` are `Option`-typed; `parse` methods
read the buffer at the same offsets as the source (offset `i` is modelled by
iterated `List.drop`). -/

structure ChordRelay where
  packet_type : Nat
  index : Option Nat
  packets : Option (List (List Nat))
deriving DecidableEq

/-- `ChordRelay.encode`: tag, index as u32, count as u32, then each packet as
a length-prefixed blob. -/
def ChordRelay.encode (m : ChordRelay) : Except ChordError (List Nat) := do
  let index ← req m.index
  let packets ← req m.packets
  Except.ok (ChordMessage.encodeBase m.packet_type ++
    (pack32 index ++ (pack32 packets.length ++ encodeBlobList packets)))

/-- `ChordRelay.parse`: index at offset 1, count at offset 5, then `count`
length-prefixed blobs from offset 9, kept as opaque buffers. -/
def ChordRelay.parse (buf : List Nat) : Except ChordError ChordRelay := do
  let pt ← ChordMessage.parse_type buf
  let index ← readU32 (buf.drop 1)
  let cnt ← readU32 ((buf.drop 1).drop 4)
  let r ← parseBlobList (((buf.drop 1).drop 4).drop 4) cnt
  Except.ok ⟨pt, some index, some r.2⟩

structure ChordNodeInfo where
  packet_type : Nat
  sender_address : List Nat
deriving DecidableEq

/-- `ChordNodeInfo.encode`: tag then the sender address string. -/
def ChordNodeInfo.encode (m : ChordNodeInfo) : Except ChordError (List Nat) :=
  Except.ok (ChordMessage.encodeBase m.packet_type ++ sshtype.encodeString m.sender_address)

/-- `ChordNodeInfo.parse`: the string at offset 1. -/
def ChordNodeInfo.parse (buf : List Nat) : Except ChordError ChordNodeInfo := do
  let pt ← ChordMessage.parse_type buf
  let r ← sshtype.parseString (buf.drop 1)
  Except.ok ⟨pt, r.2⟩

structure ChordGetPeers where
  packet_type : Nat
  sender_port : Option Nat
deriving DecidableEq

/-- `ChordGetPeers.encode`: tag then the port as u32. -/
def ChordGetPeers.encode (m : ChordGetPeers) : Except ChordError (List Nat) := do
  let port ← req m.sender_port
  Except.ok (ChordMessage.encodeBase m.packet_type ++ pack32 port)

/-- `ChordGetPeers.parse`: the u32 at offset 1. -/
def ChordGetPeers.parse (buf : List Nat) : Except ChordError ChordGetPeers := do
  let pt ← ChordMessage.parse_type buf
  let port ← readU32 (buf.drop 1)
  Except.ok ⟨pt, some port⟩

structure ChordPeerList where
  packet_type : Nat
  peers : Option (List WirePeer)
deriving DecidableEq

/-- One iteration of the `ChordPeerList.encode` loop: address and node_id,
then either the bytes derived from the signing key (`type(peer) is
mnpeer.Peer`) or the stored pubkey blob (`assert type(peer) is Peer`); any
other shape fails the assertion. -/
def encodePeerRecord : WirePeer → Except ChordError (List Nat)
  | WirePeer.managed address node_id node_key =>
      Except.ok (sshtype.encodeString address ++
        (sshtype.encodeBinary node_id ++ sshtype.encodeBinary node_key.asbytes))
  | WirePeer.directory p =>
      Except.ok (sshtype.encodeString p.address ++
        (sshtype.encodeBinary p.node_id ++ sshtype.encodeBinary p.pubkey))
  | WirePeer.unknownShape _ _ => Except.error ChordError.assertionFailed

/-- The full `ChordPeerList.encode` loop over the peer list. -/
def encodePeerRecords : List WirePeer → Except ChordError (List Nat)
  | [] => Except.ok []
  | w :: ws => do
      let r ← encodePeerRecord w
      let rs ← encodePeerRecords ws
      Except.ok (r ++ rs)

/-- `ChordPeerList.encode`: tag, count as u32, then the peer records. -/
def ChordPeerList.encode (m : ChordPeerList) : Except ChordError (List Nat) := do
  let peers ← req m.peers
  let body ← encodePeerRecords peers
  Except.ok (ChordMessage.encodeBase m.packet_type ++ (pack32 peers.length ++ body))

/-- The read loop of `ChordPeerList.parse`: `count` records of
(string, blob, blob), each advancing the cursor by the consumed length;
always yields directory-style records. -/
def parsePeerRecords : List Nat → Nat → Except ChordError (Nat × List WirePeer)
  | _, 0 => Except.ok (0, [])
  | buf, n + 1 => do
      let r1 ← sshtype.parseString buf
      let r2 ← sshtype.parseBinary (buf.drop r1.1)
      let r3 ← sshtype.parseBinary ((buf.drop r1.1).drop r2.1)
      let rs ← parsePeerRecords (((buf.drop r1.1).drop r2.1).drop r3.1) n
      Except.ok (r1.1 + r2.1 + r3.1 + rs.1,
        WirePeer.directory ⟨r1.2, r2.2, r3.2⟩ :: rs.2)

/-- `ChordPeerList.parse`: count at offset 1, then `count` peer records from
offset 5. -/
def ChordPeerList.parse (buf : List Nat) : Except ChordError ChordPeerList := do
  let pt ← ChordMessage.parse_type buf
  let pcnt ← readU32 (buf.drop 1)
  let r ← parsePeerRecords ((buf.drop 1).drop 4) pcnt
  Except.ok ⟨pt, some r.2⟩

structure ChordFindNode where
  packet_type : Nat
  node_id : Option (List Nat)
  data_mode : DataModeField
deriving DecidableEq

/-- `ChordFindNode.encode`: tag, node_id blob, then `struct.pack("?", self.data_mode)`. -/
def ChordFindNode.encode (m : ChordFindNode) : Except ChordError (List Nat) := do
  let nid ← req m.node_id
  Except.ok (ChordMessage.encodeBase m.packet_type ++
    (sshtype.encodeBinary nid ++ [dataModeByte m.data_mode]))

/-- `ChordFindNode.parse`: the blob at offset 1, then one boolean byte. -/
def ChordFindNode.parse (buf : List Nat) : Except ChordError ChordFindNode := do
  let pt ← ChordMessage.parse_type buf
  let r ← sshtype.parseBinary (buf.drop 1)
  let b ← readBoolByte ((buf.drop 1).drop r.1)
  Except.ok ⟨pt, some r.2, DataModeField.parsed b⟩

structure ChordGetData where
  packet_type : Nat
  data_id : Option (List Nat)
deriving DecidableEq

/-- `ChordGetData.encode`: tag then the data_id blob. -/
def ChordGetData.encode (m : ChordGetData) : Except ChordError (List Nat) := do
  let did ← req m.data_id
  Except.ok (ChordMessage.encodeBase m.packet_type ++ sshtype.encodeBinary did)

/-- `ChordGetData.parse`: the blob at offset 1. -/
def ChordGetData.parse (buf : List Nat) : Except ChordError ChordGetData := do
  let pt ← ChordMessage.parse_type buf
  let r ← sshtype.parseBinary (buf.drop 1)
  Except.ok ⟨pt, some r.2⟩

structure ChordDataResponse where
  packet_type : Nat
  data_id : Option (List Nat)
  data : Option (List Nat)
deriving DecidableEq

/-- `ChordDataResponse.encode`: tag, data_id blob, data blob. -/
def ChordDataResponse.encode (m : ChordDataResponse) : Except ChordError (List Nat) := do
  let did ← req m.data_id
  let d ← req m.data
  Except.ok (ChordMessage.encodeBase m.packet_type ++
    (sshtype.encodeBinary did ++ sshtype.encodeBinary d))

/-- `ChordDataResponse.parse`: two blobs from offset 1. -/
def ChordDataResponse.parse (buf : List Nat) : Except ChordError ChordDataResponse := do
  let pt ← ChordMessage.parse_type buf
  let r1 ← sshtype.parseBinary (buf.drop 1)
  let r2 ← sshtype.parseBinary ((buf.drop 1).drop r1.1)
  Except.ok ⟨pt, some r1.2, some r2.2⟩

structure ChordDataPresence where
  packet_type : Nat
  data_present : Bool
deriving DecidableEq

/-- `ChordDataPresence.encode`: tag then one boolean byte. -/
def ChordDataPresence.encode (m : ChordDataPresence) : Except ChordError (List Nat) :=
  Except.ok (ChordMessage.encodeBase m.packet_type ++ [if m.data_present then 1 else 0])

/-- `ChordDataPresence.parse`: the boolean byte at offset 1. -/
def ChordDataPresence.parse (buf : List Nat) : Except ChordError ChordDataPresence := do
  let pt ← ChordMessage.parse_type buf
  let b ← readBoolByte (buf.drop 1)
  Except.ok ⟨pt, b⟩

structure ChordStoreData where
  packet_type : Nat
  data_id : Option (List Nat)
  data : Option (List Nat)
deriving DecidableEq

/-- `ChordStoreData.encode`: tag, data_id blob, data blob. -/
def ChordStoreData.encode (m : ChordStoreData) : Except ChordError (List Nat) := do
  let did ← req m.data_id
  let d ← req m.data
  Except.ok (ChordMessage.encodeBase m.packet_type ++
    (sshtype.encodeBinary did ++ sshtype.encodeBinary d))

/-- `ChordStoreData.parse`: two blobs from offset 1. -/
def ChordStoreData.parse (buf : List Nat) : Except ChordError ChordStoreData := do
  let pt ← ChordMessage.parse_type buf
  let r1 ← sshtype.parseBinary (buf.drop 1)
  let r2 ← sshtype.parseBinary ((buf.drop 1).drop r1.1)
  Except.ok ⟨pt, some r1.2, some r2.2⟩

structure ChordDataStored where
  packet_type : Nat
  stored : Bool
deriving DecidableEq

/-- `ChordDataStored.encode`: tag then one boolean byte. -/
def ChordDataStored.encode (m : ChordDataStored) : Except ChordError (List Nat) :=
  Except.ok (ChordMessage.encodeBase m.packet_type ++ [if m.stored then 1 else 0])

/-- `ChordDataStored.parse`: the boolean byte at offset 1. -/
def ChordDataStored.parse (buf : List Nat) : Except ChordError ChordDataStored := do
  let pt ← ChordMessage.parse_type buf
  let b ← readBoolByte (buf.drop 1)
  Except.ok ⟨pt, b⟩

structure ChordStorageInterest where
  packet_type : Nat
  will_store : Bool
deriving DecidableEq

/-- `ChordStorageInterest.encode`: tag then one boolean byte. -/
def ChordStorageInterest.encode (m : ChordStorageInterest) : Except ChordError (List Nat) :=
  Except.ok (ChordMessage.encodeBase m.packet_type ++ [if m.will_store then 1 else 0])

/-- `ChordStorageInterest.parse`: the boolean byte at offset 1. -/
def ChordStorageInterest.parse (buf : List Nat) : Except ChordError ChordStorageInterest := do
  let pt ← ChordMessage.parse_type buf
  let b ← readBoolByte (buf.drop 1)
  Except.ok ⟨pt, b⟩

/-! ### Top-level dispatch: the closed catalog of variants -/

/-- The sum of all eleven message variants. -/
inductive Msg
  | relay (m : ChordRelay)
  | nodeInfo (m : ChordNodeInfo)
  | getPeers (m : ChordGetPeers)
  | peerList (m : ChordPeerList)
  | findNode (m : ChordFindNode)
  | getData (m : ChordGetData)
  | dataResponse (m : ChordDataResponse)
  | dataPresence (m : ChordDataPresence)
  | storeData (m : ChordStoreData)
  | dataStored (m : ChordDataStored)
  | storageInterest (m : ChordStorageInterest)
deriving DecidableEq

/-- The names of the eleven variants, used to pick which class's constructor
is invoked on a received buffer. -/
inductive MVariant
  | relay
  | nodeInfo
  | getPeers
  | peerList
  | findNode
  | getData
  | dataResponse
  | dataPresence
  | storeData
  | dataStored
  | storageInterest
deriving DecidableEq

/-- The registry tag each variant's constructor passes to
`ChordMessage.__init__` as the expected `packet_type`. -/
def MVariant.tag : MVariant → Nat
  | MVariant.relay => CHORD_MSG_RELAY
  | MVariant.nodeInfo => CHORD_MSG_NODE_INFO
  | MVariant.getPeers => CHORD_MSG_GET_PEERS
  | MVariant.peerList => CHORD_MSG_PEER_LIST
  | MVariant.findNode => CHORD_MSG_FIND_NODE
  | MVariant.getData => CHORD_MSG_GET_DATA
  | MVariant.dataResponse => CHORD_MSG_DATA_RESPONSE
  | MVariant.dataPresence => CHORD_MSG_DATA_PRESENCE
  | MVariant.storeData => CHORD_MSG_STORE_DATA
  | MVariant.dataStored => CHORD_MSG_DATA_STORED
  | MVariant.storageInterest => CHORD_MSG_STORAGE_INTEREST

/-- Which variant a message value belongs to. -/
def Msg.variant : Msg → MVariant
  | Msg.relay _ => MVariant.relay
  | Msg.nodeInfo _ => MVariant.nodeInfo
  | Msg.getPeers _ => MVariant.getPeers
  | Msg.peerList _ => MVariant.peerList
  | Msg.findNode _ => MVariant.findNode
  | Msg.getData _ => MVariant.getData
  | Msg.dataResponse _ => MVariant.dataResponse
  | Msg.dataPresence _ => MVariant.dataPresence
  | Msg.storeData _ => MVariant.storeData
  | Msg.dataStored _ => MVariant.dataStored
  | Msg.storageInterest _ => MVariant.storageInterest

/-- The `packet_type` attribute of the underlying instance. -/
def Msg.packet_type : Msg → Nat
  | Msg.relay m => m.packet_type
  | Msg.nodeInfo m => m.packet_type
  | Msg.getPeers m => m.packet_type
  | Msg.peerList m => m.packet_type
  | Msg.findNode m => m.packet_type
  | Msg.getData m => m.packet_type
  | Msg.dataResponse m => m.packet_type
  | Msg.dataPresence m => m.packet_type
  | Msg.storeData m => m.packet_type
  | Msg.dataStored m => m.packet_type
  | Msg.storageInterest m => m.packet_type

/-- Dispatch to the variant's `encode` method. -/
def Msg.encode : Msg → Except ChordError (List Nat)
  | Msg.relay m => m.encode
  | Msg.nodeInfo m => m.encode
  | Msg.getPeers m => m.encode
  | Msg.peerList m => m.encode
  | Msg.findNode m => m.encode
  | Msg.getData m => m.encode
  | Msg.dataResponse m => m.encode
  | Msg.dataPresence m => m.encode
  | Msg.storeData m => m.encode
  | Msg.dataStored m => m.encode
  | Msg.storageInterest m => m.encode

/-- Dispatch to the variant's `parse` method. -/
def parseVariant : MVariant → List Nat → Except ChordError Msg
  | MVariant.relay, buf => (ChordRelay.parse buf).map Msg.relay
  | MVariant.nodeInfo, buf => (ChordNodeInfo.parse buf).map Msg.nodeInfo
  | MVariant.getPeers, buf => (ChordGetPeers.parse buf).map Msg.getPeers
  | MVariant.peerList, buf => (ChordPeerList.parse buf).map Msg.peerList
  | MVariant.findNode, buf => (ChordFindNode.parse buf).map Msg.findNode
  | MVariant.getData, buf => (ChordGetData.parse buf).map Msg.getData
  | MVariant.dataResponse, buf => (ChordDataResponse.parse buf).map Msg.dataResponse
  | MVariant.dataPresence, buf => (ChordDataPresence.parse buf).map Msg.dataPresence
  | MVariant.storeData, buf => (ChordStoreData.parse buf).map Msg.storeData
  | MVariant.dataStored, buf => (ChordDataStored.parse buf).map Msg.dataStored
  | MVariant.storageInterest, buf => (ChordStorageInterest.parse buf).map Msg.storageInterest

/-- The default-initialized instance each variant's `__init__` builds before
any buffer is parsed: payload fields at their declared defaults and
`packet_type` already set to the registry tag. -/
def MVariant.defaultMsg : MVariant → Msg
  | MVariant.relay => Msg.relay ⟨CHORD_MSG_RELAY, Option.none, Option.none⟩
  | MVariant.nodeInfo => Msg.nodeInfo ⟨CHORD_MSG_NODE_INFO, []⟩
  | MVariant.getPeers => Msg.getPeers ⟨CHORD_MSG_GET_PEERS, Option.none⟩
  | MVariant.peerList => Msg.peerList ⟨CHORD_MSG_PEER_LIST, Option.none⟩
  | MVariant.findNode =>
      Msg.findNode ⟨CHORD_MSG_FIND_NODE, Option.none, DataModeField.mode DataMode.none⟩
  | MVariant.getData => Msg.getData ⟨CHORD_MSG_GET_DATA, Option.none⟩
  | MVariant.dataResponse => Msg.dataResponse ⟨CHORD_MSG_DATA_RESPONSE, Option.none, Option.none⟩
  | MVariant.dataPresence => Msg.dataPresence ⟨CHORD_MSG_DATA_PRESENCE, false⟩
  | MVariant.storeData => Msg.storeData ⟨CHORD_MSG_STORE_DATA, Option.none, Option.none⟩
  | MVariant.dataStored => Msg.dataStored ⟨CHORD_MSG_DATA_STORED, false⟩
  | MVariant.storageInterest => Msg.storageInterest ⟨CHORD_MSG_STORAGE_INTEREST, false⟩

/-- `ChordMessage.__init__(packet_type, buf)` as invoked by the variant
constructors: a falsy buffer (`None` or empty) returns the default-initialized
instance without parsing; otherwise `parse` runs and then the parsed
`packet_type` is checked against the expected tag (`if packet_type and
self.packet_type != packet_type: raise ChordException`). -/
def construct (v : MVariant) (buf : List Nat) : Except ChordError Msg :=
  if buf.isEmpty then Except.ok v.defaultMsg
  else do
    let m ← parseVariant v buf
    if v.tag ≠ 0 ∧ m.packet_type ≠ v.tag then
      Except.error (ChordError.typeMismatch v.tag m.packet_type)
    else
      Except.ok m

/-- Declared-domain well-formedness of a message value as a caller would build
it for encoding: `packet_type` is the variant's registry tag, every
`None`-defaulted field has been assigned, u32 fields and all
length-prefixed-field lengths fit in 32 bits, and peer lists are in the
directory representation (the only one `parse` can produce). -/
def Msg.Wf : Msg → Prop
  | Msg.relay ⟨pt, some index, some packets⟩ =>
      pt = CHORD_MSG_RELAY ∧ index < 2 ^ 32 ∧ packets.length < 2 ^ 32 ∧
        ∀ p ∈ packets, p.length < 2 ^ 32
  | Msg.relay _ => False
  | Msg.nodeInfo ⟨pt, addr⟩ => pt = CHORD_MSG_NODE_INFO ∧ addr.length < 2 ^ 32
  | Msg.getPeers ⟨pt, some port⟩ => pt = CHORD_MSG_GET_PEERS ∧ port < 2 ^ 32
  | Msg.getPeers _ => False
  | Msg.peerList ⟨pt, some peers⟩ =>
      pt = CHORD_MSG_PEER_LIST ∧ peers.length < 2 ^ 32 ∧
        ∃ recs : List PeerRecord, peers = recs.map WirePeer.directory ∧
          ∀ r ∈ recs, r.address.length < 2 ^ 32 ∧ r.node_id.length < 2 ^ 32 ∧
            r.pubkey.length < 2 ^ 32
  | Msg.peerList _ => False
  | Msg.findNode ⟨pt, some nid, _⟩ => pt = CHORD_MSG_FIND_NODE ∧ nid.length < 2 ^ 32
  | Msg.findNode _ => False
  | Msg.getData ⟨pt, some did⟩ => pt = CHORD_MSG_GET_DATA ∧ did.length < 2 ^ 32
  | Msg.getData _ => False
  | Msg.dataResponse ⟨pt, some did, some d⟩ =>
      pt = CHORD_MSG_DATA_RESPONSE ∧ did.length < 2 ^ 32 ∧ d.length < 2 ^ 32
  | Msg.dataResponse _ => False
  | Msg.dataPresence ⟨pt, _⟩ => pt = CHORD_MSG_DATA_PRESENCE
  | Msg.storeData ⟨pt, some did, some d⟩ =>
      pt = CHORD_MSG_STORE_DATA ∧ did.length < 2 ^ 32 ∧ d.length < 2 ^ 32
  | Msg.storeData _ => False
  | Msg.dataStored ⟨pt, _⟩ => pt = CHORD_MSG_DATA_STORED
  | Msg.storageInterest ⟨pt, _⟩ => pt = CHORD_MSG_STORAGE_INTEREST

/-- The value `parse(encode(v))` actually reconstructs: identical to `v` for
every variant except FindNode, whose `data_mode` comes back as the boolean
decoded from the single packed byte rather than the original `DataMode`
member. -/
def Msg.reparsed : Msg → Msg
  | Msg.findNode m =>
      Msg.findNode ⟨m.packet_type, m.node_id, DataModeField.parsed (dataModeByte m.data_mode != 0)⟩
  | m => m

/-! ### Layout lemmas for each variant's wire format -/

theorem pack32_drop (n : Nat) (l : List Nat) : (pack32 n ++ l).drop 4 = l := rfl

theorem boolByte_bne (b : Bool) : ((if b then (1 : Nat) else 0) != 0) = b := by
  cases b <;> rfl

/-- `parseString` behaves on an encoded string exactly as `parseBinary` on an
encoded blob. -/
theorem parseString_take (s : List Nat) (h : s.length < 2 ^ 32) (rest : List Nat) (j : Nat) :
    sshtype.parseString ((sshtype.encodeString s ++ rest).take j) =
      if j < 4 + s.length then .error .truncated else .ok (4 + s.length, s) :=
  parseBinary_take s h rest j

/-- The wire bytes of one directory-style peer record. -/
def peerRecordBytes (r : PeerRecord) : List Nat :=
  sshtype.encodeString r.address ++
    (sshtype.encodeBinary r.node_id ++ sshtype.encodeBinary r.pubkey)

/-- The wire bytes of a list of directory-style peer records. -/
def peerRecordsBytes : List PeerRecord → List Nat
  | [] => []
  | r :: rs => peerRecordBytes r ++ peerRecordsBytes rs

theorem peerRecordBytes_length (r : PeerRecord) :
    (peerRecordBytes r).length =
      4 + r.address.length + (4 + r.node_id.length) + (4 + r.pubkey.length) := by
  simp only [peerRecordBytes, List.length_append, encodeString_length, encodeBinary_length]
  omega

/-- The encode loop over a list of directory peers succeeds and produces the
record bytes. -/
theorem encodePeerRecords_directory (recs : List PeerRecord) :
    encodePeerRecords (recs.map WirePeer.directory) = .ok (peerRecordsBytes recs) := by
  induction recs with
  | nil => rfl
  | cons r tl ih =>
      rw [List.map_cons, encodePeerRecords]
      simp only [encodePeerRecord, except_bind_ok, ih]
      rfl

/-- The read loop of `ChordPeerList.parse` on a take-truncated buffer laid out
as `recs.length` records followed by `rest`: it fails with the truncated-input
error until every record is complete, then returns directory records that
mirror the input. -/
theorem parsePeerRecords_take (recs : List PeerRecord)
    (h : ∀ r ∈ recs, r.address.length < 2 ^ 32 ∧ r.node_id.length < 2 ^ 32 ∧
      r.pubkey.length < 2 ^ 32)
    (rest : List Nat) (j : Nat) :
    parsePeerRecords ((peerRecordsBytes recs ++ rest).take j) recs.length =
      if j < (peerRecordsBytes recs).length then .error .truncated
      else .ok ((peerRecordsBytes recs).length, recs.map WirePeer.directory) := by
  induction recs generalizing rest j with
  | nil =>
      simp [peerRecordsBytes, parsePeerRecords]
  | cons r tl ih =>
      obtain ⟨ha, hn, hk⟩ := h r (List.mem_cons_self r tl)
      have htl := fun q hq => h q (List.mem_cons_of_mem r hq)
      have hlay : peerRecordsBytes (r :: tl) ++ rest =
          sshtype.encodeString r.address ++
            (sshtype.encodeBinary r.node_id ++
              (sshtype.encodeBinary r.pubkey ++ (peerRecordsBytes tl ++ rest))) := by
        simp [peerRecordsBytes, peerRecordBytes, List.append_assoc]
      have hlen : (peerRecordsBytes (r :: tl)).length =
          4 + r.address.length + (4 + r.node_id.length) + (4 + r.pubkey.length) +
            (peerRecordsBytes tl).length := by
        rw [peerRecordsBytes, List.length_append, peerRecordBytes_length]
      rw [hlay]
      rw [show (r :: tl).length = tl.length + 1 from rfl, parsePeerRecords]
      have h1 := parseString_take r.address ha
        (sshtype.encodeBinary r.node_id ++
          (sshtype.encodeBinary r.pubkey ++ (peerRecordsBytes tl ++ rest))) j
      rcases Nat.lt_or_ge j (4 + r.address.length) with hj1 | hj1
      · rw [if_pos hj1] at h1
        simp only [h1, except_bind_err]
        rw [if_pos (show j < (peerRecordsBytes (r :: tl)).length by rw [hlen]; omega)]
      · rw [if_neg (show ¬ j < 4 + r.address.length by omega)] at h1
        simp only [h1, except_bind_ok]
        rw [List.drop_take, List.drop_left' (encodeString_length r.address)]
        have h2 := parseBinary_take r.node_id hn
          (sshtype.encodeBinary r.pubkey ++ (peerRecordsBytes tl ++ rest))
          (j - (4 + r.address.length))
        rcases Nat.lt_or_ge (j - (4 + r.address.length)) (4 + r.node_id.length) with hj2 | hj2
        · rw [if_pos hj2] at h2
          simp only [h2, except_bind_err]
          rw [if_pos (show j < (peerRecordsBytes (r :: tl)).length by rw [hlen]; omega)]
        · rw [if_neg (show ¬ j - (4 + r.address.length) < 4 + r.node_id.length by omega)] at h2
          simp only [h2, except_bind_ok]
          rw [List.drop_take, List.drop_left' (encodeBinary_length r.node_id)]
          have h3 := parseBinary_take r.pubkey hk (peerRecordsBytes tl ++ rest)
            (j - (4 + r.address.length) - (4 + r.node_id.length))
          rcases Nat.lt_or_ge (j - (4 + r.address.length) - (4 + r.node_id.length))
            (4 + r.pubkey.length) with hj3 | hj3
          · rw [if_pos hj3] at h3
            simp only [h3, except_bind_err]
            rw [if_pos (show j < (peerRecordsBytes (r :: tl)).length by rw [hlen]; omega)]
          · rw [if_neg (show ¬ j - (4 + r.address.length) - (4 + r.node_id.length) <
                4 + r.pubkey.length by omega)] at h3
            simp only [h3, except_bind_ok]
            rw [List.drop_take, List.drop_left' (encodeBinary_length r.pubkey)]
            have h4 := ih htl rest
              (j - (4 + r.address.length) - (4 + r.node_id.length) - (4 + r.pubkey.length))
            rcases Nat.lt_or_ge
              (j - (4 + r.address.length) - (4 + r.node_id.length) - (4 + r.pubkey.length))
              (peerRecordsBytes tl).length with hj4 | hj4
            · rw [if_pos hj4] at h4
              simp only [h4, except_bind_err]
              rw [if_pos (show j < (peerRecordsBytes (r :: tl)).length by rw [hlen]; omega)]
            · rw [if_neg (show ¬ j - (4 + r.address.length) - (4 + r.node_id.length) -
                  (4 + r.pubkey.length) < (peerRecordsBytes tl).length by omega)] at h4
              simp only [h4, except_bind_ok]
              rw [if_neg (show ¬ j < (peerRecordsBytes (r :: tl)).length by rw [hlen]; omega)]
              rw [hlen, List.map_cons]

theorem drop_one_cons (a : Nat) (l : List Nat) : (a :: l).drop 1 = l := rfl

/-! ### Per-variant parse behaviour on arbitrarily truncated or extended
buffers.  Each lemma fixes the buffer to the exact layout the variant's
`encode` emits, followed by arbitrary `rest` bytes, and truncates it at an
arbitrary point `j`. -/

theorem parse_take_dataPresence (b : Bool) (rest : List Nat) (j : Nat) :
    ChordDataPresence.parse ((165 :: (if b then 1 else 0) :: rest).take j) =
      if j < 2 then .error .truncated else .ok ⟨165, b⟩ := by
  cases j with
  | zero => rw [List.take_zero, if_pos (by omega)]; rfl
  | succ j =>
      rw [List.take_succ_cons, ChordDataPresence.parse]
      simp only [ChordMessage.parse_type, except_bind_ok, drop_one_cons]
      rw [readBoolByte_take]
      rcases Nat.lt_or_ge j 1 with hj | hj
      · simp only [if_pos hj, except_bind_err, if_pos (show j + 1 < 2 by omega)]
      · simp only [if_neg (show ¬ j < 1 by omega), except_bind_ok, boolByte_bne,
          if_neg (show ¬ j + 1 < 2 by omega)]

theorem parse_take_dataStored (b : Bool) (rest : List Nat) (j : Nat) :
    ChordDataStored.parse ((172 :: (if b then 1 else 0) :: rest).take j) =
      if j < 2 then .error .truncated else .ok ⟨172, b⟩ := by
  cases j with
  | zero => rw [List.take_zero, if_pos (by omega)]; rfl
  | succ j =>
      rw [List.take_succ_cons, ChordDataStored.parse]
      simp only [ChordMessage.parse_type, except_bind_ok, drop_one_cons]
      rw [readBoolByte_take]
      rcases Nat.lt_or_ge j 1 with hj | hj
      · simp only [if_pos hj, except_bind_err, if_pos (show j + 1 < 2 by omega)]
      · simp only [if_neg (show ¬ j < 1 by omega), except_bind_ok, boolByte_bne,
          if_neg (show ¬ j + 1 < 2 by omega)]

theorem parse_take_storageInterest (b : Bool) (rest : List Nat) (j : Nat) :
    ChordStorageInterest.parse ((175 :: (if b then 1 else 0) :: rest).take j) =
      if j < 2 then .error .truncated else .ok ⟨175, b⟩ := by
  cases j with
  | zero => rw [List.take_zero, if_pos (by omega)]; rfl
  | succ j =>
      rw [List.take_succ_cons, ChordStorageInterest.parse]
      simp only [ChordMessage.parse_type, except_bind_ok, drop_one_cons]
      rw [readBoolByte_take]
      rcases Nat.lt_or_ge j 1 with hj | hj
      · simp only [if_pos hj, except_bind_err, if_pos (show j + 1 < 2 by omega)]
      · simp only [if_neg (show ¬ j < 1 by omega), except_bind_ok, boolByte_bne,
          if_neg (show ¬ j + 1 < 2 by omega)]

theorem parse_take_nodeInfo (addr : List Nat) (h : addr.length < 2 ^ 32)
    (rest : List Nat) (j : Nat) :
    ChordNodeInfo.parse ((110 :: (sshtype.encodeString addr ++ rest)).take j) =
      if j < 5 + addr.length then .error .truncated else .ok ⟨110, addr⟩ := by
  cases j with
  | zero => rw [List.take_zero, if_pos (by omega)]; rfl
  | succ j =>
      rw [List.take_succ_cons, ChordNodeInfo.parse]
      simp only [ChordMessage.parse_type, except_bind_ok, drop_one_cons]
      have ha := parseString_take addr h rest j
      rcases Nat.lt_or_ge j (4 + addr.length) with hj | hj
      · rw [if_pos hj] at ha
        simp only [ha, except_bind_err, if_pos (show j + 1 < 5 + addr.length by omega)]
      · rw [if_neg (show ¬ j < 4 + addr.length by omega)] at ha
        simp only [ha, except_bind_ok, if_neg (show ¬ j + 1 < 5 + addr.length by omega)]

theorem parse_take_getPeers (port : Nat) (h : port < 2 ^ 32) (rest : List Nat) (j : Nat) :
    ChordGetPeers.parse ((115 :: (pack32 port ++ rest)).take j) =
      if j < 5 then .error .truncated else .ok ⟨115, some port⟩ := by
  cases j with
  | zero => rw [List.take_zero, if_pos (by omega)]; rfl
  | succ j =>
      rw [List.take_succ_cons, ChordGetPeers.parse]
      simp only [ChordMessage.parse_type, except_bind_ok, drop_one_cons]
      rw [readU32_take port h rest j]
      rcases Nat.lt_or_ge j 4 with hj | hj
      · simp only [if_pos hj, except_bind_err, if_pos (show j + 1 < 5 by omega)]
      · simp only [if_neg (show ¬ j < 4 by omega), except_bind_ok,
          if_neg (show ¬ j + 1 < 5 by omega)]

theorem parse_take_getData (did : List Nat) (h : did.length < 2 ^ 32)
    (rest : List Nat) (j : Nat) :
    ChordGetData.parse ((160 :: (sshtype.encodeBinary did ++ rest)).take j) =
      if j < 5 + did.length then .error .truncated else .ok ⟨160, some did⟩ := by
  cases j with
  | zero => rw [List.take_zero, if_pos (by omega)]; rfl
  | succ j =>
      rw [List.take_succ_cons, ChordGetData.parse]
      simp only [ChordMessage.parse_type, except_bind_ok, drop_one_cons]
      have ha := parseBinary_take did h rest j
      rcases Nat.lt_or_ge j (4 + did.length) with hj | hj
      · rw [if_pos hj] at ha
        simp only [ha, except_bind_err, if_pos (show j + 1 < 5 + did.length by omega)]
      · rw [if_neg (show ¬ j < 4 + did.length by omega)] at ha
        simp only [ha, except_bind_ok, if_neg (show ¬ j + 1 < 5 + did.length by omega)]

theorem parse_take_dataResponse (did d : List Nat) (h1 : did.length < 2 ^ 32)
    (h2 : d.length < 2 ^ 32) (rest : List Nat) (j : Nat) :
    ChordDataResponse.parse
        ((162 :: (sshtype.encodeBinary did ++ (sshtype.encodeBinary d ++ rest))).take j) =
      if j < 9 + did.length + d.length then .error .truncated
      else .ok ⟨162, some did, some d⟩ := by
  cases j with
  | zero => rw [List.take_zero, if_pos (by omega)]; rfl
  | succ j =>
      rw [List.take_succ_cons, ChordDataResponse.parse]
      simp only [ChordMessage.parse_type, except_bind_ok, drop_one_cons]
      have ha := parseBinary_take did h1 (sshtype.encodeBinary d ++ rest) j
      rcases Nat.lt_or_ge j (4 + did.length) with hj | hj
      · rw [if_pos hj] at ha
        simp only [ha, except_bind_err,
          if_pos (show j + 1 < 9 + did.length + d.length by omega)]
      · rw [if_neg (show ¬ j < 4 + did.length by omega)] at ha
        simp only [ha, except_bind_ok]
        rw [List.drop_take, List.drop_left' (encodeBinary_length did)]
        have hb := parseBinary_take d h2 rest (j - (4 + did.length))
        rcases Nat.lt_or_ge (j - (4 + did.length)) (4 + d.length) with hk | hk
        · rw [if_pos hk] at hb
          simp only [hb, except_bind_err,
            if_pos (show j + 1 < 9 + did.length + d.length by omega)]
        · rw [if_neg (show ¬ j - (4 + did.length) < 4 + d.length by omega)] at hb
          simp only [hb, except_bind_ok,
            if_neg (show ¬ j + 1 < 9 + did.length + d.length by omega)]

theorem parse_take_storeData (did d : List Nat) (h1 : did.length < 2 ^ 32)
    (h2 : d.length < 2 ^ 32) (rest : List Nat) (j : Nat) :
    ChordStoreData.parse
        ((170 :: (sshtype.encodeBinary did ++ (sshtype.encodeBinary d ++ rest))).take j) =
      if j < 9 + did.length + d.length then .error .truncated
      else .ok ⟨170, some did, some d⟩ := by
  cases j with
  | zero => rw [List.take_zero, if_pos (by omega)]; rfl
  | succ j =>
      rw [List.take_succ_cons, ChordStoreData.parse]
      simp only [ChordMessage.parse_type, except_bind_ok, drop_one_cons]
      have ha := parseBinary_take did h1 (sshtype.encodeBinary d ++ rest) j
      rcases Nat.lt_or_ge j (4 + did.length) with hj | hj
      · rw [if_pos hj] at ha
        simp only [ha, except_bind_err,
          if_pos (show j + 1 < 9 + did.length + d.length by omega)]
      · rw [if_neg (show ¬ j < 4 + did.length by omega)] at ha
        simp only [ha, except_bind_ok]
        rw [List.drop_take, List.drop_left' (encodeBinary_length did)]
        have hb := parseBinary_take d h2 rest (j - (4 + did.length))
        rcases Nat.lt_or_ge (j - (4 + did.length)) (4 + d.length) with hk | hk
        · rw [if_pos hk] at hb
          simp only [hb, except_bind_err,
            if_pos (show j + 1 < 9 + did.length + d.length by omega)]
        · rw [if_neg (show ¬ j - (4 + did.length) < 4 + d.length by omega)] at hb
          simp only [hb, except_bind_ok,
            if_neg (show ¬ j + 1 < 9 + did.length + d.length by omega)]

theorem parse_take_findNode (nid : List Nat) (h : nid.length < 2 ^ 32) (x : Nat)
    (rest : List Nat) (j : Nat) :
    ChordFindNode.parse ((150 :: (sshtype.encodeBinary nid ++ (x :: rest))).take j) =
      if j < 6 + nid.length then .error .truncated
      else .ok ⟨150, some nid, DataModeField.parsed (x != 0)⟩ := by
  cases j with
  | zero => rw [List.take_zero, if_pos (by omega)]; rfl
  | succ j =>
      rw [List.take_succ_cons, ChordFindNode.parse]
      simp only [ChordMessage.parse_type, except_bind_ok, drop_one_cons]
      have ha := parseBinary_take nid h (x :: rest) j
      rcases Nat.lt_or_ge j (4 + nid.length) with hj | hj
      · rw [if_pos hj] at ha
        simp only [ha, except_bind_err, if_pos (show j + 1 < 6 + nid.length by omega)]
      · rw [if_neg (show ¬ j < 4 + nid.length by omega)] at ha
        simp only [ha, except_bind_ok]
        rw [List.drop_take, List.drop_left' (encodeBinary_length nid)]
        rw [readBoolByte_take]
        rcases Nat.lt_or_ge (j - (4 + nid.length)) 1 with hk | hk
        · simp only [if_pos hk, except_bind_err,
            if_pos (show j + 1 < 6 + nid.length by omega)]
        · simp only [if_neg (show ¬ j - (4 + nid.length) < 1 by omega), except_bind_ok,
            if_neg (show ¬ j + 1 < 6 + nid.length by omega)]

theorem parse_take_relay (i : Nat) (hi : i < 2 ^ 32) (ps : List (List Nat))
    (hc : ps.length < 2 ^ 32) (hp : ∀ p ∈ ps, p.length < 2 ^ 32)
    (rest : List Nat) (j : Nat) :
    ChordRelay.parse
        ((100 :: (pack32 i ++ (pack32 ps.length ++ (encodeBlobList ps ++ rest)))).take j) =
      if j < 9 + (encodeBlobList ps).length then .error .truncated
      else .ok ⟨100, some i, some ps⟩ := by
  cases j with
  | zero => rw [List.take_zero, if_pos (by omega)]; rfl
  | succ j =>
      rw [List.take_succ_cons, ChordRelay.parse]
      simp only [ChordMessage.parse_type, except_bind_ok, drop_one_cons]
      rw [readU32_take i hi (pack32 ps.length ++ (encodeBlobList ps ++ rest)) j]
      rcases Nat.lt_or_ge j 4 with hj | hj
      · simp only [if_pos hj, except_bind_err,
          if_pos (show j + 1 < 9 + (encodeBlobList ps).length by omega)]
      · simp only [if_neg (show ¬ j < 4 by omega), except_bind_ok]
        rw [List.drop_take, pack32_drop]
        rw [readU32_take ps.length hc (encodeBlobList ps ++ rest) (j - 4)]
        rcases Nat.lt_or_ge (j - 4) 4 with hk | hk
        · simp only [if_pos hk, except_bind_err,
            if_pos (show j + 1 < 9 + (encodeBlobList ps).length by omega)]
        · simp only [if_neg (show ¬ j - 4 < 4 by omega), except_bind_ok]
          rw [List.drop_take, pack32_drop]
          have hb := parseBlobList_take ps hp rest (j - 4 - 4)
          rcases Nat.lt_or_ge (j - 4 - 4) (encodeBlobList ps).length with hm | hm
          · rw [if_pos hm] at hb
            simp only [hb, except_bind_err,
              if_pos (show j + 1 < 9 + (encodeBlobList ps).length by omega)]
          · rw [if_neg (show ¬ j - 4 - 4 < (encodeBlobList ps).length by omega)] at hb
            simp only [hb, except_bind_ok,
              if_neg (show ¬ j + 1 < 9 + (encodeBlobList ps).length by omega)]

theorem parse_take_peerList (recs : List PeerRecord) (hc : recs.length < 2 ^ 32)
    (h : ∀ r ∈ recs, r.address.length < 2 ^ 32 ∧ r.node_id.length < 2 ^ 32 ∧
      r.pubkey.length < 2 ^ 32)
    (rest : List Nat) (j : Nat) :
    ChordPeerList.parse
        ((120 :: (pack32 recs.length ++ (peerRecordsBytes recs ++ rest))).take j) =
      if j < 5 + (peerRecordsBytes recs).length then .error .truncated
      else .ok ⟨120, some (recs.map WirePeer.directory)⟩ := by
  cases j with
  | zero => rw [List.take_zero, if_pos (by omega)]; rfl
  | succ j =>
      rw [List.take_succ_cons, ChordPeerList.parse]
      simp only [ChordMessage.parse_type, except_bind_ok, drop_one_cons]
      rw [readU32_take recs.length hc (peerRecordsBytes recs ++ rest) j]
      rcases Nat.lt_or_ge j 4 with hj | hj
      · simp only [if_pos hj, except_bind_err,
          if_pos (show j + 1 < 5 + (peerRecordsBytes recs).length by omega)]
      · simp only [if_neg (show ¬ j < 4 by omega), except_bind_ok]
        rw [List.drop_take, pack32_drop]
        have hb := parsePeerRecords_take recs h rest (j - 4)
        rcases Nat.lt_or_ge (j - 4) (peerRecordsBytes recs).length with hm | hm
        · rw [if_pos hm] at hb
          simp only [hb, except_bind_err,
            if_pos (show j + 1 < 5 + (peerRecordsBytes recs).length by omega)]
        · rw [if_neg (show ¬ j - 4 < (peerRecordsBytes recs).length by omega)] at hb
          simp only [hb, except_bind_ok,
            if_neg (show ¬ j + 1 < 5 + (peerRecordsBytes recs).length by omega)]

theorem except_map_ok {ε α β : Type} (f : α → β) (a : α) :
    (Except.ok a : Except ε α).map f = .ok (f a) := rfl

theorem except_map_err {ε α β : Type} (f : α → β) (e : ε) :
    (Except.error e : Except ε α).map f = .error e := rfl

/-- Congruence for mapping a constructor over a truncation-conditional parse
result, with propositionally equivalent bounds on each side. -/
theorem except_map_ite {ε α β : Type} (c1 c2 : Prop) [Decidable c1] [Decidable c2]
    (hc : c1 ↔ c2) (e : ε) (v : α) (f : α → β) (w : β) (hw : f v = w) :
    (if c1 then Except.error e else Except.ok v : Except ε α).map f =
      if c2 then Except.error e else Except.ok w := by
  by_cases h : c1
  · rw [if_pos h, if_pos (hc.mp h)]
    rfl
  · rw [if_neg h, if_neg (fun hh => h (hc.mpr hh)), ← hw]
    rfl

/-- Master lemma: parsing any prefix (`take j`) of any well-formed message's
encoding followed by arbitrary trailing bytes fails with the truncated-input
error while the prefix is strictly inside the encoding, and succeeds with the
reparsed value as soon as the whole encoding is present, whatever follows. -/
theorem parseVariant_encode_take (m : Msg) (hW : m.Wf) (buf rest : List Nat) (j : Nat)
    (he : m.encode = .ok buf) :
    parseVariant m.variant ((buf ++ rest).take j) =
      if j < buf.length then Except.error ChordError.truncated
      else Except.ok m.reparsed := by
  cases m with
  | relay m =>
      obtain ⟨pt, index, packets⟩ := m
      cases index with
      | none => exact hW.elim
      | some i =>
        cases packets with
        | none => exact hW.elim
        | some ps =>
          have hW' : pt = CHORD_MSG_RELAY ∧ i < 2 ^ 32 ∧ ps.length < 2 ^ 32 ∧
              ∀ p ∈ ps, p.length < 2 ^ 32 := hW
          obtain ⟨hpt, hi, hc, hp⟩ := hW'
          subst hpt
          simp only [Msg.encode, ChordRelay.encode, req, except_bind_ok,
            Except.ok.injEq] at he
          subst he
          simp only [Msg.variant, parseVariant, Msg.reparsed, ChordMessage.encodeBase,
            CHORD_MSG_RELAY, List.cons_append, List.nil_append, List.append_assoc]
          rw [parse_take_relay i hi ps hc hp rest j]
          refine except_map_ite _ _ ?_ _ _ _ _ rfl
          simp only [List.length_cons, List.length_append, List.length_nil,
            pack32_length, encodeBinary_length, encodeString_length,
            peerRecordBytes_length]
          try omega
  | nodeInfo m =>
      obtain ⟨pt, addr⟩ := m
      have hW' : pt = CHORD_MSG_NODE_INFO ∧ addr.length < 2 ^ 32 := hW
      obtain ⟨hpt, ha⟩ := hW'
      subst hpt
      simp only [Msg.encode, ChordNodeInfo.encode, Except.ok.injEq] at he
      subst he
      simp only [Msg.variant, parseVariant, Msg.reparsed, ChordMessage.encodeBase,
        CHORD_MSG_NODE_INFO, List.cons_append, List.nil_append, List.append_assoc]
      rw [parse_take_nodeInfo addr ha rest j]
      refine except_map_ite _ _ ?_ _ _ _ _ rfl
      simp only [List.length_cons, List.length_append, List.length_nil,
        pack32_length, encodeBinary_length, encodeString_length,
        peerRecordBytes_length]
      try omega
  | getPeers m =>
      obtain ⟨pt, port⟩ := m
      cases port with
      | none => exact hW.elim
      | some p =>
        have hW' : pt = CHORD_MSG_GET_PEERS ∧ p < 2 ^ 32 := hW
        obtain ⟨hpt, hp⟩ := hW'
        subst hpt
        simp only [Msg.encode, ChordGetPeers.encode, req, except_bind_ok,
          Except.ok.injEq] at he
        subst he
        simp only [Msg.variant, parseVariant, Msg.reparsed, ChordMessage.encodeBase,
          CHORD_MSG_GET_PEERS, List.cons_append, List.nil_append, List.append_assoc]
        rw [parse_take_getPeers p hp rest j]
        refine except_map_ite _ _ ?_ _ _ _ _ rfl
        simp only [List.length_cons, List.length_append, List.length_nil,
          pack32_length, encodeBinary_length, encodeString_length,
          peerRecordBytes_length]
        try omega
  | peerList m =>
      obtain ⟨pt, peers⟩ := m
      cases peers with
      | none => exact hW.elim
      | some peers =>
        have hW' : pt = CHORD_MSG_PEER_LIST ∧ peers.length < 2 ^ 32 ∧
            ∃ recs : List PeerRecord, peers = recs.map WirePeer.directory ∧
              ∀ r ∈ recs, r.address.length < 2 ^ 32 ∧ r.node_id.length < 2 ^ 32 ∧
                r.pubkey.length < 2 ^ 32 := hW
        obtain ⟨hpt, hlen32, recs, hpeers, hrecs⟩ := hW'
        subst hpt
        subst hpeers
        rw [List.length_map] at hlen32
        simp only [Msg.encode, ChordPeerList.encode, req, except_bind_ok,
          encodePeerRecords_directory, List.length_map, Except.ok.injEq] at he
        subst he
        simp only [Msg.variant, parseVariant, Msg.reparsed, ChordMessage.encodeBase,
          CHORD_MSG_PEER_LIST, List.cons_append, List.nil_append, List.append_assoc]
        rw [parse_take_peerList recs hlen32 hrecs rest j]
        refine except_map_ite _ _ ?_ _ _ _ _ rfl
        simp only [List.length_cons, List.length_append, List.length_nil,
          pack32_length, encodeBinary_length, encodeString_length,
          peerRecordBytes_length]
        try omega
  | findNode m =>
      obtain ⟨pt, nid, dm⟩ := m
      cases nid with
      | none => exact hW.elim
      | some nid =>
        have hW' : pt = CHORD_MSG_FIND_NODE ∧ nid.length < 2 ^ 32 := hW
        obtain ⟨hpt, hn⟩ := hW'
        subst hpt
        simp only [Msg.encode, ChordFindNode.encode, req, except_bind_ok,
          Except.ok.injEq] at he
        subst he
        simp only [Msg.variant, parseVariant, Msg.reparsed, ChordMessage.encodeBase,
          CHORD_MSG_FIND_NODE, List.cons_append, List.nil_append, List.append_assoc]
        rw [parse_take_findNode nid hn (dataModeByte dm) rest j]
        refine except_map_ite _ _ ?_ _ _ _ _ rfl
        simp only [List.length_cons, List.length_append, List.length_nil,
          pack32_length, encodeBinary_length, encodeString_length,
          peerRecordBytes_length]
        try omega
  | getData m =>
      obtain ⟨pt, did⟩ := m
      cases did with
      | none => exact hW.elim
      | some did =>
        have hW' : pt = CHORD_MSG_GET_DATA ∧ did.length < 2 ^ 32 := hW
        obtain ⟨hpt, hd⟩ := hW'
        subst hpt
        simp only [Msg.encode, ChordGetData.encode, req, except_bind_ok,
          Except.ok.injEq] at he
        subst he
        simp only [Msg.variant, parseVariant, Msg.reparsed, ChordMessage.encodeBase,
          CHORD_MSG_GET_DATA, List.cons_append, List.nil_append, List.append_assoc]
        rw [parse_take_getData did hd rest j]
        refine except_map_ite _ _ ?_ _ _ _ _ rfl
        simp only [List.length_cons, List.length_append, List.length_nil,
          pack32_length, encodeBinary_length, encodeString_length,
          peerRecordBytes_length]
        try omega
  | dataResponse m =>
      obtain ⟨pt, did, d⟩ := m
      cases did with
      | none => exact hW.elim
      | some did =>
        cases d with
        | none => exact hW.elim
        | some d =>
          have hW' : pt = CHORD_MSG_DATA_RESPONSE ∧ did.length < 2 ^ 32 ∧
              d.length < 2 ^ 32 := hW
          obtain ⟨hpt, hd1, hd2⟩ := hW'
          subst hpt
          simp only [Msg.encode, ChordDataResponse.encode, req, except_bind_ok,
            Except.ok.injEq] at he
          subst he
          simp only [Msg.variant, parseVariant, Msg.reparsed, ChordMessage.encodeBase,
            CHORD_MSG_DATA_RESPONSE, List.cons_append, List.nil_append, List.append_assoc]
          rw [parse_take_dataResponse did d hd1 hd2 rest j]
          refine except_map_ite _ _ ?_ _ _ _ _ rfl
          simp only [List.length_cons, List.length_append, List.length_nil,
            pack32_length, encodeBinary_length, encodeString_length,
            peerRecordBytes_length]
          try omega
  | dataPresence m =>
      obtain ⟨pt, b⟩ := m
      have hpt : pt = CHORD_MSG_DATA_PRESENCE := hW
      subst hpt
      simp only [Msg.encode, ChordDataPresence.encode, Except.ok.injEq] at he
      subst he
      simp only [Msg.variant, parseVariant, Msg.reparsed, ChordMessage.encodeBase,
        CHORD_MSG_DATA_PRESENCE, List.cons_append, List.nil_append, List.append_assoc]
      rw [parse_take_dataPresence b rest j]
      refine except_map_ite _ _ ?_ _ _ _ _ rfl
      simp only [List.length_cons, List.length_append, List.length_nil,
        pack32_length, encodeBinary_length, encodeString_length,
        peerRecordBytes_length]
      try omega
  | storeData m =>
      obtain ⟨pt, did, d⟩ := m
      cases did with
      | none => exact hW.elim
      | some did =>
        cases d with
        | none => exact hW.elim
        | some d =>
          have hW' : pt = CHORD_MSG_STORE_DATA ∧ did.length < 2 ^ 32 ∧
              d.length < 2 ^ 32 := hW
          obtain ⟨hpt, hd1, hd2⟩ := hW'
          subst hpt
          simp only [Msg.encode, ChordStoreData.encode, req, except_bind_ok,
            Except.ok.injEq] at he
          subst he
          simp only [Msg.variant, parseVariant, Msg.reparsed, ChordMessage.encodeBase,
            CHORD_MSG_STORE_DATA, List.cons_append, List.nil_append, List.append_assoc]
          rw [parse_take_storeData did d hd1 hd2 rest j]
          refine except_map_ite _ _ ?_ _ _ _ _ rfl
          simp only [List.length_cons, List.length_append, List.length_nil,
            pack32_length, encodeBinary_length, encodeString_length,
            peerRecordBytes_length]
          try omega
  | dataStored m =>
      obtain ⟨pt, b⟩ := m
      have hpt : pt = CHORD_MSG_DATA_STORED := hW
      subst hpt
      simp only [Msg.encode, ChordDataStored.encode, Except.ok.injEq] at he
      subst he
      simp only [Msg.variant, parseVariant, Msg.reparsed, ChordMessage.encodeBase,
        CHORD_MSG_DATA_STORED, List.cons_append, List.nil_append, List.append_assoc]
      rw [parse_take_dataStored b rest j]
      refine except_map_ite _ _ ?_ _ _ _ _ rfl
      simp only [List.length_cons, List.length_append, List.length_nil,
        pack32_length, encodeBinary_length, encodeString_length,
        peerRecordBytes_length]
      try omega
  | storageInterest m =>
      obtain ⟨pt, b⟩ := m
      have hpt : pt = CHORD_MSG_STORAGE_INTEREST := hW
      subst hpt
      simp only [Msg.encode, ChordStorageInterest.encode, Except.ok.injEq] at he
      subst he
      simp only [Msg.variant, parseVariant, Msg.reparsed, ChordMessage.encodeBase,
        CHORD_MSG_STORAGE_INTEREST, List.cons_append, List.nil_append, List.append_assoc]
      rw [parse_take_storageInterest b rest j]
      refine except_map_ite _ _ ?_ _ _ _ _ rfl
      simp only [List.length_cons, List.length_append, List.length_nil,
        pack32_length, encodeBinary_length, encodeString_length,
        peerRecordBytes_length]
      try omega

/-! ### Construct-level lemmas -/

theorem parseVariant_nil (v : MVariant) : parseVariant v [] = .error .truncated := by
  cases v <;> rfl

theorem reparsed_packet_type (m : Msg) : m.reparsed.packet_type = m.packet_type := by
  cases m <;> rfl

theorem tag_ne_zero (v : MVariant) : v.tag ≠ 0 := by
  cases v <;> decide

theorem tag_inj (v w : MVariant) (h : v.tag = w.tag) : v = w := by
  cases v <;> cases w <;> first | rfl | exact absurd h (by decide)

/-- A well-formed message's `packet_type` field is the variant's registry tag. -/
theorem wf_packet_type (m : Msg) (hW : m.Wf) : m.packet_type = m.variant.tag := by
  cases m with
  | relay m =>
      obtain ⟨pt, index, packets⟩ := m
      cases index with
      | none => exact hW.elim
      | some i =>
        cases packets with
        | none => exact hW.elim
        | some ps => exact hW.1
  | nodeInfo m =>
      obtain ⟨pt, addr⟩ := m
      exact hW.1
  | getPeers m =>
      obtain ⟨pt, port⟩ := m
      cases port with
      | none => exact hW.elim
      | some p => exact hW.1
  | peerList m =>
      obtain ⟨pt, peers⟩ := m
      cases peers with
      | none => exact hW.elim
      | some peers => exact hW.1
  | findNode m =>
      obtain ⟨pt, nid, dm⟩ := m
      cases nid with
      | none => exact hW.elim
      | some nid => exact hW.1
  | getData m =>
      obtain ⟨pt, did⟩ := m
      cases did with
      | none => exact hW.elim
      | some did => exact hW.1
  | dataResponse m =>
      obtain ⟨pt, did, d⟩ := m
      cases did with
      | none => exact hW.elim
      | some did =>
        cases d with
        | none => exact hW.elim
        | some d => exact hW.1
  | dataPresence m =>
      obtain ⟨pt, b⟩ := m
      exact hW
  | storeData m =>
      obtain ⟨pt, did, d⟩ := m
      cases did with
      | none => exact hW.elim
      | some did =>
        cases d with
        | none => exact hW.elim
        | some d => exact hW.1
  | dataStored m =>
      obtain ⟨pt, b⟩ := m
      exact hW
  | storageInterest m =>
      obtain ⟨pt, b⟩ := m
      exact hW

/-! ### Parse inversion: whenever a variant's `parse` succeeds, the resulting
`packet_type` is exactly the first byte of the buffer (`super().parse()`). -/

theorem chordRelay_parse_ok_pt (buf : List Nat) (r : ChordRelay)
    (h : ChordRelay.parse buf = .ok r) :
    ChordMessage.parse_type buf = .ok r.packet_type := by
  cases buf with
  | nil => exact Except.noConfusion h
  | cons b bs =>
      rw [ChordRelay.parse] at h
      simp only [ChordMessage.parse_type, except_bind_ok] at h
      rcases h1 : readU32 ((b :: bs).drop 1) with e | i
      · rw [h1, except_bind_err] at h
        exact Except.noConfusion h
      · rw [h1, except_bind_ok] at h
        rcases h2 : readU32 (((b :: bs).drop 1).drop 4) with e | c
        · rw [h2, except_bind_err] at h
          exact Except.noConfusion h
        · rw [h2, except_bind_ok] at h
          rcases h3 : parseBlobList ((((b :: bs).drop 1).drop 4).drop 4) c with e | pr
          · rw [h3, except_bind_err] at h
            exact Except.noConfusion h
          · rw [h3, except_bind_ok] at h
            obtain rfl := Except.ok.inj h
            rfl

theorem chordNodeInfo_parse_ok_pt (buf : List Nat) (r : ChordNodeInfo)
    (h : ChordNodeInfo.parse buf = .ok r) :
    ChordMessage.parse_type buf = .ok r.packet_type := by
  cases buf with
  | nil => exact Except.noConfusion h
  | cons b bs =>
      rw [ChordNodeInfo.parse] at h
      simp only [ChordMessage.parse_type, except_bind_ok] at h
      rcases h1 : sshtype.parseString ((b :: bs).drop 1) with e | pr
      · rw [h1, except_bind_err] at h
        exact Except.noConfusion h
      · rw [h1, except_bind_ok] at h
        obtain rfl := Except.ok.inj h
        rfl

theorem chordGetPeers_parse_ok_pt (buf : List Nat) (r : ChordGetPeers)
    (h : ChordGetPeers.parse buf = .ok r) :
    ChordMessage.parse_type buf = .ok r.packet_type := by
  cases buf with
  | nil => exact Except.noConfusion h
  | cons b bs =>
      rw [ChordGetPeers.parse] at h
      simp only [ChordMessage.parse_type, except_bind_ok] at h
      rcases h1 : readU32 ((b :: bs).drop 1) with e | p
      · rw [h1, except_bind_err] at h
        exact Except.noConfusion h
      · rw [h1, except_bind_ok] at h
        obtain rfl := Except.ok.inj h
        rfl

theorem chordPeerList_parse_ok_pt (buf : List Nat) (r : ChordPeerList)
    (h : ChordPeerList.parse buf = .ok r) :
    ChordMessage.parse_type buf = .ok r.packet_type := by
  cases buf with
  | nil => exact Except.noConfusion h
  | cons b bs =>
      rw [ChordPeerList.parse] at h
      simp only [ChordMessage.parse_type, except_bind_ok] at h
      rcases h1 : readU32 ((b :: bs).drop 1) with e | c
      · rw [h1, except_bind_err] at h
        exact Except.noConfusion h
      · rw [h1, except_bind_ok] at h
        rcases h2 : parsePeerRecords (((b :: bs).drop 1).drop 4) c with e | pr
        · rw [h2, except_bind_err] at h
          exact Except.noConfusion h
        · rw [h2, except_bind_ok] at h
          obtain rfl := Except.ok.inj h
          rfl

theorem chordFindNode_parse_ok_pt (buf : List Nat) (r : ChordFindNode)
    (h : ChordFindNode.parse buf = .ok r) :
    ChordMessage.parse_type buf = .ok r.packet_type := by
  cases buf with
  | nil => exact Except.noConfusion h
  | cons b bs =>
      rw [ChordFindNode.parse] at h
      simp only [ChordMessage.parse_type, except_bind_ok] at h
      rcases h1 : sshtype.parseBinary ((b :: bs).drop 1) with e | pr
      · rw [h1, except_bind_err] at h
        exact Except.noConfusion h
      · rw [h1, except_bind_ok] at h
        rcases h2 : readBoolByte (((b :: bs).drop 1).drop pr.1) with e | bb
        · rw [h2, except_bind_err] at h
          exact Except.noConfusion h
        · rw [h2, except_bind_ok] at h
          obtain rfl := Except.ok.inj h
          rfl

theorem chordGetData_parse_ok_pt (buf : List Nat) (r : ChordGetData)
    (h : ChordGetData.parse buf = .ok r) :
    ChordMessage.parse_type buf = .ok r.packet_type := by
  cases buf with
  | nil => exact Except.noConfusion h
  | cons b bs =>
      rw [ChordGetData.parse] at h
      simp only [ChordMessage.parse_type, except_bind_ok] at h
      rcases h1 : sshtype.parseBinary ((b :: bs).drop 1) with e | pr
      · rw [h1, except_bind_err] at h
        exact Except.noConfusion h
      · rw [h1, except_bind_ok] at h
        obtain rfl := Except.ok.inj h
        rfl

theorem chordDataResponse_parse_ok_pt (buf : List Nat) (r : ChordDataResponse)
    (h : ChordDataResponse.parse buf = .ok r) :
    ChordMessage.parse_type buf = .ok r.packet_type := by
  cases buf with
  | nil => exact Except.noConfusion h
  | cons b bs =>
      rw [ChordDataResponse.parse] at h
      simp only [ChordMessage.parse_type, except_bind_ok] at h
      rcases h1 : sshtype.parseBinary ((b :: bs).drop 1) with e | p1
      · rw [h1, except_bind_err] at h
        exact Except.noConfusion h
      · rw [h1, except_bind_ok] at h
        rcases h2 : sshtype.parseBinary (((b :: bs).drop 1).drop p1.1) with e | p2
        · rw [h2, except_bind_err] at h
          exact Except.noConfusion h
        · rw [h2, except_bind_ok] at h
          obtain rfl := Except.ok.inj h
          rfl

theorem chordDataPresence_parse_ok_pt (buf : List Nat) (r : ChordDataPresence)
    (h : ChordDataPresence.parse buf = .ok r) :
    ChordMessage.parse_type buf = .ok r.packet_type := by
  cases buf with
  | nil => exact Except.noConfusion h
  | cons b bs =>
      rw [ChordDataPresence.parse] at h
      simp only [ChordMessage.parse_type, except_bind_ok] at h
      rcases h1 : readBoolByte ((b :: bs).drop 1) with e | bb
      · rw [h1, except_bind_err] at h
        exact Except.noConfusion h
      · rw [h1, except_bind_ok] at h
        obtain rfl := Except.ok.inj h
        rfl

theorem chordStoreData_parse_ok_pt (buf : List Nat) (r : ChordStoreData)
    (h : ChordStoreData.parse buf = .ok r) :
    ChordMessage.parse_type buf = .ok r.packet_type := by
  cases buf with
  | nil => exact Except.noConfusion h
  | cons b bs =>
      rw [ChordStoreData.parse] at h
      simp only [ChordMessage.parse_type, except_bind_ok] at h
      rcases h1 : sshtype.parseBinary ((b :: bs).drop 1) with e | p1
      · rw [h1, except_bind_err] at h
        exact Except.noConfusion h
      · rw [h1, except_bind_ok] at h
        rcases h2 : sshtype.parseBinary (((b :: bs).drop 1).drop p1.1) with e | p2
        · rw [h2, except_bind_err] at h
          exact Except.noConfusion h
        · rw [h2, except_bind_ok] at h
          obtain rfl := Except.ok.inj h
          rfl

theorem chordDataStored_parse_ok_pt (buf : List Nat) (r : ChordDataStored)
    (h : ChordDataStored.parse buf = .ok r) :
    ChordMessage.parse_type buf = .ok r.packet_type := by
  cases buf with
  | nil => exact Except.noConfusion h
  | cons b bs =>
      rw [ChordDataStored.parse] at h
      simp only [ChordMessage.parse_type, except_bind_ok] at h
      rcases h1 : readBoolByte ((b :: bs).drop 1) with e | bb
      · rw [h1, except_bind_err] at h
        exact Except.noConfusion h
      · rw [h1, except_bind_ok] at h
        obtain rfl := Except.ok.inj h
        rfl

theorem chordStorageInterest_parse_ok_pt (buf : List Nat) (r : ChordStorageInterest)
    (h : ChordStorageInterest.parse buf = .ok r) :
    ChordMessage.parse_type buf = .ok r.packet_type := by
  cases buf with
  | nil => exact Except.noConfusion h
  | cons b bs =>
      rw [ChordStorageInterest.parse] at h
      simp only [ChordMessage.parse_type, except_bind_ok] at h
      rcases h1 : readBoolByte ((b :: bs).drop 1) with e | bb
      · rw [h1, except_bind_err] at h
        exact Except.noConfusion h
      · rw [h1, except_bind_ok] at h
        obtain rfl := Except.ok.inj h
        rfl

/-- Whenever `parseVariant` succeeds, the result's `packet_type` is the tag
byte actually present in the buffer. -/
theorem parseVariant_ok_packet_type (v : MVariant) (buf : List Nat) (m' : Msg)
    (h : parseVariant v buf = .ok m') :
    ChordMessage.parse_type buf = .ok m'.packet_type := by
  cases v with
  | relay =>
      rcases hp : ChordRelay.parse buf with e | r
      · rw [parseVariant, hp, except_map_err] at h
        exact Except.noConfusion h
      · rw [parseVariant, hp, except_map_ok] at h
        obtain rfl := Except.ok.inj h
        exact chordRelay_parse_ok_pt buf r hp
  | nodeInfo =>
      rcases hp : ChordNodeInfo.parse buf with e | r
      · rw [parseVariant, hp, except_map_err] at h
        exact Except.noConfusion h
      · rw [parseVariant, hp, except_map_ok] at h
        obtain rfl := Except.ok.inj h
        exact chordNodeInfo_parse_ok_pt buf r hp
  | getPeers =>
      rcases hp : ChordGetPeers.parse buf with e | r
      · rw [parseVariant, hp, except_map_err] at h
        exact Except.noConfusion h
      · rw [parseVariant, hp, except_map_ok] at h
        obtain rfl := Except.ok.inj h
        exact chordGetPeers_parse_ok_pt buf r hp
  | peerList =>
      rcases hp : ChordPeerList.parse buf with e | r
      · rw [parseVariant, hp, except_map_err] at h
        exact Except.noConfusion h
      · rw [parseVariant, hp, except_map_ok] at h
        obtain rfl := Except.ok.inj h
        exact chordPeerList_parse_ok_pt buf r hp
  | findNode =>
      rcases hp : ChordFindNode.parse buf with e | r
      · rw [parseVariant, hp, except_map_err] at h
        exact Except.noConfusion h
      · rw [parseVariant, hp, except_map_ok] at h
        obtain rfl := Except.ok.inj h
        exact chordFindNode_parse_ok_pt buf r hp
  | getData =>
      rcases hp : ChordGetData.parse buf with e | r
      · rw [parseVariant, hp, except_map_err] at h
        exact Except.noConfusion h
      · rw [parseVariant, hp, except_map_ok] at h
        obtain rfl := Except.ok.inj h
        exact chordGetData_parse_ok_pt buf r hp
  | dataResponse =>
      rcases hp : ChordDataResponse.parse buf with e | r
      · rw [parseVariant, hp, except_map_err] at h
        exact Except.noConfusion h
      · rw [parseVariant, hp, except_map_ok] at h
        obtain rfl := Except.ok.inj h
        exact chordDataResponse_parse_ok_pt buf r hp
  | dataPresence =>
      rcases hp : ChordDataPresence.parse buf with e | r
      · rw [parseVariant, hp, except_map_err] at h
        exact Except.noConfusion h
      · rw [parseVariant, hp, except_map_ok] at h
        obtain rfl := Except.ok.inj h
        exact chordDataPresence_parse_ok_pt buf r hp
  | storeData =>
      rcases hp : ChordStoreData.parse buf with e | r
      · rw [parseVariant, hp, except_map_err] at h
        exact Except.noConfusion h
      · rw [parseVariant, hp, except_map_ok] at h
        obtain rfl := Except.ok.inj h
        exact chordStoreData_parse_ok_pt buf r hp
  | dataStored =>
      rcases hp : ChordDataStored.parse buf with e | r
      · rw [parseVariant, hp, except_map_err] at h
        exact Except.noConfusion h
      · rw [parseVariant, hp, except_map_ok] at h
        obtain rfl := Except.ok.inj h
        exact chordDataStored_parse_ok_pt buf r hp
  | storageInterest =>
      rcases hp : ChordStorageInterest.parse buf with e | r
      · rw [parseVariant, hp, except_map_err] at h
        exact Except.noConfusion h
      · rw [parseVariant, hp, except_map_ok] at h
        obtain rfl := Except.ok.inj h
        exact chordStorageInterest_parse_ok_pt buf r hp

/-- A successful encode always produces at least the tag byte. -/
theorem encode_length_pos (m : Msg) (hW : m.Wf) (buf : List Nat)
    (he : m.encode = .ok buf) : 0 < buf.length := by
  by_contra h
  have h0 := parseVariant_encode_take m hW buf [] 0 he
  rw [if_neg (by omega), List.take_zero, parseVariant_nil] at h0
  exact Except.noConfusion h0

/-- Peeking the first byte of a well-formed message's encoding yields the
variant's registry tag. -/
theorem encode_parse_type (m : Msg) (hW : m.Wf) (buf : List Nat)
    (he : m.encode = .ok buf) :
    ChordMessage.parse_type buf = .ok m.variant.tag := by
  have hfull := parseVariant_encode_take m hW buf [] buf.length he
  rw [List.append_nil, List.take_length, if_neg (by omega)] at hfull
  have h := parseVariant_ok_packet_type m.variant buf m.reparsed hfull
  rw [reparsed_packet_type, wf_packet_type m hW] at h
  exact h

/-- Running the variant's constructor on its own encoding (plus any trailing
bytes) succeeds and returns the reparsed value. -/
theorem construct_encode (m : Msg) (hW : m.Wf) (buf rest : List Nat)
    (he : m.encode = .ok buf) :
    construct m.variant (buf ++ rest) = .ok m.reparsed := by
  have hpos := encode_length_pos m hW buf he
  have hfull := parseVariant_encode_take m hW buf rest (buf ++ rest).length he
  rw [List.take_length,
    if_neg (show ¬ (buf ++ rest).length < buf.length by
      simp only [List.length_append]; omega)] at hfull
  obtain ⟨b, bs, rfl⟩ : ∃ b bs, buf = b :: bs := by
    cases buf with
    | nil => simp at hpos
    | cons b bs => exact ⟨b, bs, rfl⟩
  rw [construct, if_neg (show ¬ ((b :: bs ++ rest).isEmpty = true) by simp)]
  simp only [hfull, except_bind_ok]
  rw [if_neg]
  intro hand
  exact hand.2 (by rw [reparsed_packet_type, wf_packet_type m hW])

/-- Running the variant's constructor on a strict non-empty prefix of its own
encoding fails with the truncated-input error. -/
theorem construct_encode_trunc (m : Msg) (hW : m.Wf) (buf : List Nat)
    (he : m.encode = .ok buf) (k : Nat) (hk1 : 1 ≤ k) (hk2 : k < buf.length) :
    construct m.variant (buf.take k) = .error .truncated := by
  have h := parseVariant_encode_take m hW buf [] k he
  rw [List.append_nil, if_pos hk2] at h
  obtain ⟨b, bs, rfl⟩ : ∃ b bs, buf = b :: bs := by
    cases buf with
    | nil => simp at hk2
    | cons b bs => exact ⟨b, bs, rfl⟩
  obtain ⟨k', rfl⟩ : ∃ k', k = k' + 1 := ⟨k - 1, by omega⟩
  rw [List.take_succ_cons] at h ⊢
  rw [construct, if_neg (show ¬ (((b :: bs.take k').isEmpty) = true) by simp)]
  simp only [h, except_bind_err]

/-- Running a different variant's constructor on a well-formed message's
encoding always fails; when the other variant's payload happens to parse, the
failure is precisely the type-mismatch error. -/
theorem construct_wrong (m : Msg) (hW : m.Wf) (buf : List Nat)
    (he : m.encode = .ok buf) (v : MVariant) (hv : v ≠ m.variant) :
    ∃ e, construct v buf = .error e ∧
      (∀ m', parseVariant v buf = .ok m' →
        e = ChordError.typeMismatch v.tag m.variant.tag) := by
  have hpos := encode_length_pos m hW buf he
  have hpt := encode_parse_type m hW buf he
  obtain ⟨b, bs, rfl⟩ : ∃ b bs, buf = b :: bs := by
    cases buf with
    | nil => simp at hpos
    | cons b bs => exact ⟨b, bs, rfl⟩
  rcases hp : parseVariant v (b :: bs) with e | m'
  · refine ⟨e, ?_, ?_⟩
    · rw [construct, if_neg (show ¬ (((b :: bs).isEmpty) = true) by simp)]
      simp only [hp, except_bind_err]
    · intro m' h'
      exact Except.noConfusion h'
  · have hptv := parseVariant_ok_packet_type v (b :: bs) m' hp
    rw [hpt] at hptv
    have hmpt : m'.packet_type = m.variant.tag := (Except.ok.inj hptv).symm
    refine ⟨ChordError.typeMismatch v.tag m.variant.tag, ?_, ?_⟩
    · rw [construct, if_neg (show ¬ (((b :: bs).isEmpty) = true) by simp)]
      simp only [hp, except_bind_ok]
      rw [if_pos ⟨tag_ne_zero v, by
        rw [hmpt]
        intro hh
        exact hv (tag_inj v m.variant hh.symm)⟩]
      rw [hmpt]
    · intro m'' _
      rfl

theorem readU32_append (n : Nat) (h : n < 2 ^ 32) (rest : List Nat) :
    readU32 (pack32 n ++ rest) = .ok n := by
  have := readU32_take n h rest (pack32 n ++ rest).length
  rw [List.take_length,
    if_neg (by simp only [List.length_append, pack32_length]; omega)] at this
  exact this

/-- If a relay buffer declares a count larger than the number of blobs its
body actually holds, `ChordRelay.parse` fails with the truncated-input
error. -/
theorem relay_parse_overrun (i : Nat) (hi : i < 2 ^ 32) (ps : List (List Nat))
    (hp : ∀ p ∈ ps, p.length < 2 ^ 32) (extra : Nat)
    (hcnt : ps.length + extra + 1 < 2 ^ 32) :
    ChordRelay.parse
        (100 :: (pack32 i ++ (pack32 (ps.length + extra + 1) ++ encodeBlobList ps))) =
      .error .truncated := by
  rw [ChordRelay.parse]
  simp only [ChordMessage.parse_type, except_bind_ok, drop_one_cons]
  rw [readU32_append i hi]
  simp only [except_bind_ok]
  rw [pack32_drop, readU32_append (ps.length + extra + 1) hcnt]
  simp only [except_bind_ok]
  rw [pack32_drop]
  simp only [parseBlobList_overrun ps hp extra, except_bind_err]

/-! ### Claim theorems -/

/-- C1 counterexample: decode(encode(v)) ≠ v for FindNode. Encoding a FindNode
whose data_mode is `DataMode.get` writes the boolean byte 1 (Python packs the
truth value of the enum member), and parsing returns a boolean `true` in
data_mode, not the original member, so the round-trip claim fails as stated. -/
theorem findNode_roundtrip_counterexample :
    Msg.encode (Msg.findNode ⟨150, some [], DataModeField.mode DataMode.get⟩) =
      .ok [150, 0, 0, 0, 0, 1] ∧
    construct MVariant.findNode [150, 0, 0, 0, 0, 1] =
      .ok (Msg.findNode ⟨150, some [], DataModeField.parsed true⟩) ∧
    Msg.findNode ⟨150, some [], DataModeField.parsed true⟩ ≠
      Msg.findNode ⟨150, some [], DataModeField.mode DataMode.get⟩ := by
  refine ⟨rfl, rfl, ?_⟩
  decide

/-- C1 (amended): for every well-formed message (fields assigned, u32 fields
and length-prefixed lengths below 2^32, peer lists in directory
representation), parsing the encode output reconstructs the message exactly,
except that FindNode's data_mode comes back as the decoded boolean (always
`true` for any DataMode member, the known single-byte-boolean defect); every
variant other than FindNode round-trips exactly. -/
theorem chord_roundtrip_amended (m : Msg) (hW : m.Wf) (buf : List Nat)
    (he : m.encode = .ok buf) :
    construct m.variant buf = .ok m.reparsed ∧
      (m.variant ≠ MVariant.findNode → m.reparsed = m) := by
  constructor
  · have h := construct_encode m hW buf [] he
    rwa [List.append_nil] at h
  · intro hv
    cases m <;> first | rfl | exact absurd rfl hv

/-- C1 witness: the amended round-trip at a concrete DataPresence message. -/
theorem chord_roundtrip_amended_witness :
    construct (Msg.dataPresence ⟨165, true⟩).variant [165, 1] =
        .ok (Msg.dataPresence ⟨165, true⟩).reparsed ∧
      ((Msg.dataPresence ⟨165, true⟩).variant ≠ MVariant.findNode →
        (Msg.dataPresence ⟨165, true⟩).reparsed = Msg.dataPresence ⟨165, true⟩) :=
  chord_roundtrip_amended (Msg.dataPresence ⟨165, true⟩) rfl [165, 1] rfl

/-- C2: for every well-formed message, the encode output begins with the
variant's registry tag (peeking with parse_type returns it), and the registry
tags are exactly 100, 110, 115, 120, 150, 160, 162, 165, 170, 172, 175. -/
theorem encode_tag_integrity (m : Msg) (hW : m.Wf) (buf : List Nat)
    (he : m.encode = .ok buf) :
    ChordMessage.parse_type buf = .ok m.variant.tag ∧
      MVariant.tag MVariant.relay = 100 ∧ MVariant.tag MVariant.nodeInfo = 110 ∧
      MVariant.tag MVariant.getPeers = 115 ∧ MVariant.tag MVariant.peerList = 120 ∧
      MVariant.tag MVariant.findNode = 150 ∧ MVariant.tag MVariant.getData = 160 ∧
      MVariant.tag MVariant.dataResponse = 162 ∧
      MVariant.tag MVariant.dataPresence = 165 ∧
      MVariant.tag MVariant.storeData = 170 ∧ MVariant.tag MVariant.dataStored = 172 ∧
      MVariant.tag MVariant.storageInterest = 175 :=
  ⟨encode_parse_type m hW buf he, rfl, rfl, rfl, rfl, rfl, rfl, rfl, rfl, rfl, rfl, rfl⟩

/-- C2 witness: tag integrity at a concrete DataStored message. -/
theorem encode_tag_integrity_witness :
    ChordMessage.parse_type [172, 0] = .ok (Msg.dataStored ⟨172, false⟩).variant.tag :=
  (encode_tag_integrity (Msg.dataStored ⟨172, false⟩) rfl [172, 0] rfl).1

/-- C3 counterexample: constructing GetPeers from DataPresence's valid 2-byte
encoding fails with the truncated-input error (GetPeers' u32 read runs out of
bytes before the tag check is reached), not with a type-mismatch error, so the
claim that the failure is always a type mismatch is false. -/
theorem type_mismatch_counterexample :
    Msg.encode (Msg.dataPresence ⟨165, false⟩) = .ok [165, 0] ∧
    construct MVariant.getPeers [165, 0] = .error ChordError.truncated ∧
    ChordError.truncated ≠
      ChordError.typeMismatch (MVariant.tag MVariant.getPeers)
        (MVariant.tag MVariant.dataPresence) := by
  refine ⟨rfl, rfl, ?_⟩
  decide

/-- C3 (amended): constructing a different variant from a well-formed
message's encoding never succeeds; whenever the other variant's payload
happens to parse structurally, the reported error is exactly the
type-mismatch error (otherwise the payload parse may fail first, e.g. with a
truncated-input error). -/
theorem construct_wrong_variant_errors (m : Msg) (hW : m.Wf) (buf : List Nat)
    (he : m.encode = .ok buf) (v : MVariant) (hv : v ≠ m.variant) :
    ∃ e, construct v buf = .error e ∧
      (∀ m', parseVariant v buf = .ok m' →
        e = ChordError.typeMismatch v.tag m.variant.tag) :=
  construct_wrong m hW buf he v hv

/-- C3 witness: constructing DataPresence from DataStored's encoding. -/
theorem construct_wrong_variant_errors_witness :
    ∃ e, construct MVariant.dataPresence [172, 1] = .error e ∧
      (∀ m', parseVariant MVariant.dataPresence [172, 1] = .ok m' →
        e = ChordError.typeMismatch MVariant.dataPresence.tag
          (Msg.dataStored ⟨172, true⟩).variant.tag) :=
  construct_wrong_variant_errors (Msg.dataStored ⟨172, true⟩) rfl [172, 1] rfl
    MVariant.dataPresence (by decide)

/-- C4 counterexample: the length-0 prefix of a valid DataPresence encoding
does not fail: the constructor's falsy-buffer guard (`if not buf`) treats the
empty buffer as absent and returns a default-initialized instance whose
data_present is `false`, not the encoded `true` — a value, not a
truncated-input error. -/
theorem empty_prefix_counterexample :
    Msg.encode (Msg.dataPresence ⟨165, true⟩) = .ok [165, 1] ∧
    List.take 0 [165, 1] = ([] : List Nat) ∧
    construct MVariant.dataPresence [] = .ok (Msg.dataPresence ⟨165, false⟩) ∧
    Msg.dataPresence ⟨165, false⟩ ≠ Msg.dataPresence ⟨165, true⟩ := by
  refine ⟨rfl, rfl, rfl, ?_⟩
  decide

/-- C4 (amended): truncating a well-formed message's encoding at any prefix
length k with 1 ≤ k < full length makes the constructor fail with the
truncated-input error; the length-0 prefix alone is treated as an absent
buffer and silently yields the variant's default-initialized instance. -/
theorem truncation_amended (m : Msg) (hW : m.Wf) (buf : List Nat)
    (he : m.encode = .ok buf) (k : Nat) (hk1 : 1 ≤ k) (hk2 : k < buf.length) :
    construct m.variant (buf.take k) = .error ChordError.truncated ∧
      construct m.variant (buf.take 0) = .ok (MVariant.defaultMsg m.variant) :=
  ⟨construct_encode_trunc m hW buf he k hk1 hk2, by rw [List.take_zero]; rfl⟩

/-- C4 witness: truncation at k = 1 of a concrete DataPresence encoding. -/
theorem truncation_amended_witness :
    construct (Msg.dataPresence ⟨165, true⟩).variant ([165, 1].take 1) =
        .error ChordError.truncated ∧
      construct (Msg.dataPresence ⟨165, true⟩).variant ([165, 1].take 0) =
        .ok (MVariant.defaultMsg (Msg.dataPresence ⟨165, true⟩).variant) :=
  truncation_amended (Msg.dataPresence ⟨165, true⟩) rfl [165, 1] rfl 1 (by decide)
    (by decide)

/-- C5: a local/managed peer and a directory peer that share address, node_id
and public-key bytes (the key material deriving exactly those bytes) encode to
byte-identical wire output, both record-wise and inside a peer list. -/
theorem peer_adapter_equivalence (a n : List Nat) (k : SigningKey) :
    encodePeerRecord (WirePeer.managed a n k) =
      encodePeerRecord (WirePeer.directory ⟨a, n, k.asbytes⟩) ∧
    ChordPeerList.encode ⟨120, some [WirePeer.managed a n k]⟩ =
      ChordPeerList.encode ⟨120, some [WirePeer.directory ⟨a, n, k.asbytes⟩]⟩ :=
  ⟨rfl, rfl⟩

/-- Helper for C6: the encode loop fails with the assertion error as soon as
the list contains a peer of unrecognized shape. -/
theorem encodePeerRecords_unknown (ps : List WirePeer) (a n : List Nat)
    (hmem : WirePeer.unknownShape a n ∈ ps) :
    encodePeerRecords ps = .error ChordError.assertionFailed := by
  induction ps with
  | nil => exact absurd hmem (List.not_mem_nil _)
  | cons w ws ih =>
      rw [encodePeerRecords]
      rcases List.mem_cons.mp hmem with h | h
      · rw [← h]
        rfl
      · cases w with
        | managed wa wn wk =>
            simp only [encodePeerRecord, except_bind_ok, ih h, except_bind_err]
        | directory p =>
            simp only [encodePeerRecord, except_bind_ok, ih h, except_bind_err]
        | unknownShape wa wn => rfl

/-- C6: a peer value exposing neither signing key material nor stored
public-key bytes makes the peer-list encode fail with the assertion error, so
the call produces no (malformed) output buffer at all. -/
theorem unknown_peer_shape_errors (pt : Nat) (ps : List WirePeer) (a n : List Nat)
    (hmem : WirePeer.unknownShape a n ∈ ps) :
    ChordPeerList.encode ⟨pt, some ps⟩ = .error ChordError.assertionFailed := by
  rw [ChordPeerList.encode]
  simp only [req, except_bind_ok, encodePeerRecords_unknown ps a n hmem, except_bind_err]

/-- C6 witness: encode failure on a singleton list holding an unknown-shape
peer. -/
theorem unknown_peer_shape_errors_witness :
    ChordPeerList.encode ⟨120, some [WirePeer.unknownShape [] []]⟩ =
      .error ChordError.assertionFailed :=
  unknown_peer_shape_errors 120 [WirePeer.unknownShape [] []] [] []
    (List.mem_cons_self _ _)

/-- C7: the data_mode defect, evaluated at a failing input. All three DataMode
members (declared values 0, 10, 20) encode to the very same buffer, whose
data_mode byte is 1 — `struct.pack("?", member)` packs the truth value and a
plain-Enum member is always truthy — and parsing returns the boolean `true`,
not a DataMode member; so the single wire byte cannot carry the three members
as the claim (and the spec's stated intent) requires. -/
theorem data_mode_defect :
    ChordFindNode.encode ⟨150, some [7], DataModeField.mode DataMode.none⟩ =
      .ok [150, 0, 0, 0, 1, 7, 1] ∧
    ChordFindNode.encode ⟨150, some [7], DataModeField.mode DataMode.get⟩ =
      .ok [150, 0, 0, 0, 1, 7, 1] ∧
    ChordFindNode.encode ⟨150, some [7], DataModeField.mode DataMode.store⟩ =
      .ok [150, 0, 0, 0, 1, 7, 1] ∧
    ChordFindNode.parse [150, 0, 0, 0, 1, 7, 1] =
      .ok ⟨150, some [7], DataModeField.parsed true⟩ ∧
    DataMode.val DataMode.none = 0 ∧ DataMode.val DataMode.get = 10 ∧
    DataMode.val DataMode.store = 20 :=
  ⟨rfl, rfl, rfl, rfl, rfl, rfl, rfl⟩

/-- C8: relay decoding reads index then count then exactly count
length-prefixed blobs, returned verbatim as opaque buffers (the packets are
arbitrary byte lists, never recursively decoded); count 0 yields the empty
list; a declared count exceeding the blobs present in the body fails with the
truncated-input error. -/
theorem relay_parse_spec (i : Nat) (hi : i < 2 ^ 32) (ps : List (List Nat))
    (hc : ps.length < 2 ^ 32) (hp : ∀ p ∈ ps, p.length < 2 ^ 32) :
    ChordRelay.parse (100 :: (pack32 i ++ (pack32 ps.length ++ encodeBlobList ps))) =
        .ok ⟨100, some i, some ps⟩ ∧
      ChordRelay.parse (100 :: (pack32 i ++ (pack32 0 ++ encodeBlobList []))) =
        .ok ⟨100, some i, some []⟩ ∧
      ∀ extra : Nat, ps.length + extra + 1 < 2 ^ 32 →
        ChordRelay.parse
            (100 :: (pack32 i ++ (pack32 (ps.length + extra + 1) ++ encodeBlobList ps))) =
          .error ChordError.truncated := by
  have key : ∀ qs : List (List Nat), qs.length < 2 ^ 32 →
      (∀ p ∈ qs, p.length < 2 ^ 32) →
      ChordRelay.parse (100 :: (pack32 i ++ (pack32 qs.length ++ encodeBlobList qs))) =
        .ok ⟨100, some i, some qs⟩ := by
    intro qs hqc hqp
    have h := parse_take_relay i hi qs hqc hqp []
      ((100 :: (pack32 i ++ (pack32 qs.length ++ (encodeBlobList qs ++ [])))).length)
    rw [List.take_length,
      if_neg (by
        simp only [List.length_cons, List.length_append, pack32_length, List.length_nil]
        omega)] at h
    rw [List.append_nil] at h
    exact h
  exact ⟨key ps hc hp, key [] (by decide) (fun p hp' => absurd hp' (List.not_mem_nil p)),
    fun extra hcnt => relay_parse_overrun i hi ps hp extra hcnt⟩

/-- C8 witness: the relay spec at index 7 with one opaque packet. -/
theorem relay_parse_spec_witness :
    ChordRelay.parse
        (100 :: (pack32 7 ++ (pack32 [[9]].length ++ encodeBlobList [[9]]))) =
      .ok ⟨100, some 7, some [[9]]⟩ :=
  (relay_parse_spec 7 (by omega) [[9]] (by decide) (by decide)).1

/-- C9: boolean wire fields decode any non-zero byte to `true` and the zero
byte to `false` (captured by `b != 0`), and re-encoding `true` always writes
the byte 1, for DataPresence, DataStored and StorageInterest. -/
theorem bool_canonicalization (b : Nat) :
    ChordDataPresence.parse [165, b] = .ok ⟨165, b != 0⟩ ∧
    ChordDataStored.parse [172, b] = .ok ⟨172, b != 0⟩ ∧
    ChordStorageInterest.parse [175, b] = .ok ⟨175, b != 0⟩ ∧
    ChordDataPresence.encode ⟨165, true⟩ = .ok [165, 1] ∧
    ChordDataPresence.encode ⟨165, false⟩ = .ok [165, 0] ∧
    ChordDataStored.encode ⟨172, true⟩ = .ok [172, 1] ∧
    ChordStorageInterest.encode ⟨175, true⟩ = .ok [175, 1] :=
  ⟨rfl, rfl, rfl, rfl, rfl, rfl, rfl⟩

/-- C10: appending any non-empty junk to a well-formed message's encoding
still parses successfully and yields exactly the same value as parsing the
unmodified buffer — trailing bytes are never inspected or rejected. -/
theorem trailing_bytes_ignored (m : Msg) (hW : m.Wf) (buf junk : List Nat)
    (he : m.encode = .ok buf) (hj : junk ≠ []) :
    construct m.variant (buf ++ junk) = .ok m.reparsed ∧
      construct m.variant buf = .ok m.reparsed :=
  ⟨construct_encode m hW buf junk he, by
    have h := construct_encode m hW buf [] he
    rwa [List.append_nil] at h⟩

/-- C10 witness: junk byte 99 appended to a concrete DataStored encoding. -/
theorem trailing_bytes_ignored_witness :
    construct (Msg.dataStored ⟨172, true⟩).variant ([172, 1] ++ [99]) =
        .ok (Msg.dataStored ⟨172, true⟩).reparsed ∧
      construct (Msg.dataStored ⟨172, true⟩).variant [172, 1] =
        .ok (Msg.dataStored ⟨172, true⟩).reparsed :=
  trailing_bytes_ignored (Msg.dataStored ⟨172, true⟩) rfl [172, 1] [99] rfl
    (by decide)
